import Mathlib

set_option maxRecDepth 100000

/-!
Verification development for the kernel-space neural-network module
(`kernel/module/neural.c`).  The C code is shallowly embedded: machine
integers become `Int`/`Nat` with explicit wrapping where the C code can
overflow, pointers become lists, in-place mutation becomes functional
state passing, and kernel time (`ktime_get`) becomes explicit time
parameters.  All definitions are transcribed from the C source; the only
exceptions are explicitly marked `Modelled from the spec` (reference
definitions used to compare spec wording against the code).
-/

namespace Neural

/-! ## Fixed-point arithmetic (Q16.16), neural.c lines 74-81

`FP_MUL(a, b)` is `((s64)(a) * (b)) >> FP_SHIFT`: the product is computed
in 64 bits and arithmetically shifted right, i.e. floor-divided by 2^16.
`FP_DIV(a, b)` is `((s64)(a) << FP_SHIFT) / (b)`: the dividend is widened
to 64 bits, shifted left by 16, then divided with C `/`, which truncates
toward zero.  The macro contains no `b == 0` test; division by zero is
undefined behavior in C (a CPU fault in kernel context). -/

def FP_SHIFT : Nat := 16

def FP_ONE : Int := 65536

def INT_TO_FP (x : Int) : Int := x * 65536

def FP_TO_INT (x : Int) : Int := Int.fdiv x 65536

def FP_MUL (a b : Int) : Int := Int.fdiv (a * b) 65536

def FP_DIV (a b : Int) : Int := Int.tdiv (a * 65536) b

/-- Reinterpret an integer as a 32-bit two's-complement value (the effect
of storing into an `s32` variable in the C code, which is compiled with
wrapping semantics). -/
def toS32 (x : Int) : Int := (x + 2 ^ 31) % 2 ^ 32 - 2 ^ 31

/-- Conversion to `u32` (the C cast `(u32)x`): reduce modulo 2^32. -/
def toU32 (x : Int) : Nat := (x % 2 ^ 32).toNat

/-- Reinterpret a `u32` value as `s32` (reading back a stored 32-bit
pattern as a signed integer). -/
def fromU32 (v : Nat) : Int := if v < 2 ^ 31 then (v : Int) else (v : Int) - 2 ^ 32

/-- Kernel `clamp_val(x, lo, hi)`. -/
def clamp_val (x lo hi : Int) : Int := min (max x lo) hi

/-! ## Transcendental approximations, neural.c lines 236-250 and 454-511 -/

/-- `neural_fp_exp` (neural.c lines 236-250).  Saturates above +5.0 to the
precomputed constant `INT_TO_FP(148)` (≈ e^5) and below −5.0 to 0;
otherwise sums `1 + x + x²/2 + x³/6` with the code's exact rounding: the
`x²/2` term uses `FP_MUL(term, x) >> 1` (floor) and the `x³/6` term uses
`FP_MUL(term, x) / 3` (C truncation).  All intermediate values fit in
`s32` for `|x| ≤ 5.0`, so the `s32` stores lose nothing. -/
def neural_fp_exp (x : Int) : Int :=
  if x > INT_TO_FP 5 then INT_TO_FP 148
  else if x < INT_TO_FP (-5) then 0
  else
    let term1 := x
    let term2 := Int.fdiv (FP_MUL term1 x) 2
    let term3 := Int.tdiv (FP_MUL term2 x) 3
    FP_ONE + term1 + term2 + term3

/-- Modelled from the spec: the spec's reference exponential sums a fixed
number of Taylor terms ("reference: 8").  This evaluator extends the
code's own term recurrence (`term = FP_MUL(term, x) / k`, with the k = 2
term produced by `>> 1` exactly as in the code) to `n` terms
(terms x^0 .. x^(n-1)); the code itself stops after 4 terms. -/
def taylorFP_from (x : Int) : Nat → Nat → Int → Int
  | 0, _, _ => 0
  | r + 1, k, t =>
    let t2 := if k = 2 then Int.fdiv (FP_MUL t x) 2 else Int.tdiv (FP_MUL t x) (k : Int)
    t2 + taylorFP_from x r (k + 1) t2

/-- Modelled from the spec: sum of the first `n` fixed-point Taylor terms
of e^x (`n ≥ 2`), companion of `taylorFP_from`. -/
def taylorFP (n : Nat) (x : Int) : Int := FP_ONE + x + taylorFP_from x (n - 2) 2 x

/-- `neural_sigmoid` (neural.c lines 454-475), transcribed branch by
branch; `x/2`, `x2/4`, `x3/12` use C truncating division, `FP_ONE >> 1`
and `FP_MUL _ _ >> 1` are arithmetic shifts (floor). -/
def neural_sigmoid (x0 : Int) : Int :=
  let x := clamp_val x0 (INT_TO_FP (-8)) (INT_TO_FP 8)
  if x > INT_TO_FP 5 then FP_ONE - 2 ^ 10
  else if x < INT_TO_FP (-5) then 2 ^ 10
  else if x > INT_TO_FP 2 then
    let t := x - INT_TO_FP 3
    FP_ONE - FP_DIV FP_ONE (FP_ONE + neural_fp_exp t)
  else if x > INT_TO_FP (-2) then
    let x2 := Int.fdiv (FP_MUL x x) 2
    let x3 := Int.tdiv (FP_MUL x2 x) 3
    Int.fdiv FP_ONE 2 + Int.tdiv x 2 - Int.tdiv x2 4 + Int.tdiv x3 12
  else
    let t := x + INT_TO_FP 3
    FP_DIV FP_ONE (FP_ONE + neural_fp_exp t)

/-- `neural_tanh` (neural.c lines 485-511). -/
def neural_tanh (x0 : Int) : Int :=
  let x := clamp_val x0 (INT_TO_FP (-4)) (INT_TO_FP 4)
  if x > INT_TO_FP 3 then FP_ONE - 2 ^ 10
  else if x < INT_TO_FP (-3) then -FP_ONE + 2 ^ 10
  else if x > INT_TO_FP 1 then
    let t := x - INT_TO_FP 2
    let exp_t := neural_fp_exp t
    let exp_neg_t := FP_DIV FP_ONE exp_t
    FP_DIV (exp_t - exp_neg_t) (exp_t + exp_neg_t)
  else if x > INT_TO_FP (-1) then
    let x2 := FP_MUL x x
    let x3 := FP_MUL x2 x
    let x5 := FP_MUL x3 x2
    x - Int.tdiv x3 3 + Int.tdiv (2 * x5) 15
  else
    let t := x + INT_TO_FP 2
    let exp_t := neural_fp_exp t
    let exp_neg_t := FP_DIV FP_ONE exp_t
    FP_DIV (exp_t - exp_neg_t) (exp_t + exp_neg_t)

/-- `apply_activation` (neural.c lines 830-846): 0 = ReLU, 1 = Sigmoid,
2 = Linear, 3 = TanH, 4 = Leaky ReLU, anything else falls back to ReLU.
`INT_TO_FP(1) / 100` is the C constant 65536/100 = 655. -/
def apply_activation (x : Int) (activation_type : Nat) : Int :=
  match activation_type with
  | 0 => if x > 0 then x else 0
  | 1 => neural_sigmoid x
  | 2 => x
  | 3 => neural_tanh x
  | 4 => if x > 0 then x else FP_MUL x 655
  | _ => if x > 0 then x else 0

/-! ## Softmax, neural.c lines 563-596

`neural_softmax` mutates the array in place; the embedding returns the
new array.  All element stores go through `s32` variables, and the sum
accumulator is an `s32`, hence the `toS32` wrapping at each step.  The
`INT_TO_FP(size)` in the uniform branch is computed in `u32` arithmetic
(`size` has type `u32`), hence the modulus. -/

/-- Maximum of the input array, seeded with element 0 as in the C loop
(for the empty array the C code would read out of bounds; the embedding
is only applied to nonempty arrays). -/
def softmax_max (l : List Int) : Int := l.foldl max (l.headD 0)

/-- First pass of `neural_softmax`: replace each element by
`neural_fp_exp(x - max)` when the shift is above −10.0, else 0.  (For
shifts in (−10, −5) the exponential itself returns 0, so the cutoff only
skips work.) -/
def softmax_exps (l : List Int) : List Int :=
  let m := softmax_max l
  l.map (fun v =>
    let shifted := toS32 (v - m)
    if shifted > INT_TO_FP (-10) then neural_fp_exp shifted else 0)

/-- The `s32` accumulation `sum += inputs[i]` of the first pass. -/
def s32sum (l : List Int) : Int := l.foldl (fun a b => toS32 (a + b)) 0

/-- `neural_softmax` (neural.c lines 563-596). -/
def neural_softmax (l : List Int) : List Int :=
  let es := softmax_exps l
  let s := s32sum es
  if s ≠ 0 then
    es.map (fun e => toS32 (FP_DIV e s))
  else
    let uniform := toS32 (FP_DIV FP_ONE (((l.length * 65536) % 2 ^ 32 : Nat) : Int))
    es.map (fun _ => uniform)

/-! ## CRC32 and byte serialization

The module checksums weights and model blobs with the kernel's
`crc32(seed, buf, len)` (little-endian CRC-32, polynomial 0xEDB88320, no
pre/post inversion beyond the caller's seed; all call sites pass seed 0).
Bytes are modelled as `Nat` values below 256. -/

/-- One step of the LSB-first CRC-32 shift register. -/
def crc32_step (c : Nat) : Nat := if c % 2 = 1 then (c / 2) ^^^ 0xEDB88320 else c / 2

/-- Absorb one byte into the CRC state. -/
def crc32_byte (crc b : Nat) : Nat :=
  crc32_step (crc32_step (crc32_step (crc32_step
    (crc32_step (crc32_step (crc32_step (crc32_step (crc ^^^ b))))))))

/-- Kernel `crc32(seed, buf, len)` over a byte list. -/
def crc32 (seed : Nat) (bytes : List Nat) : Nat := bytes.foldl crc32_byte seed

/-- Little-endian bytes of a `u32` value (x86-64 memory image). -/
def u32_bytes (v : Nat) : List Nat :=
  [v % 256, v / 256 % 256, v / 65536 % 256, v / 16777216 % 256]

/-- Little-endian bytes of a `u64` value. -/
def u64_bytes (v : Nat) : List Nat :=
  u32_bytes (v % 2 ^ 32) ++ u32_bytes (v / 2 ^ 32 % 2 ^ 32)

/-- Little-endian bytes of an `s32` value (two's complement). -/
def s32_bytes (x : Int) : List Nat := u32_bytes (toU32 x)

/-- Memory image of an `s32` array. -/
def s32_list_bytes (xs : List Int) : List Nat := (xs.map s32_bytes).flatten

/-- Read the little-endian `u32` at byte offset `off` (a 4-byte `memcpy`
or aligned load from the blob). -/
def readU32 (blob : List Nat) (off : Nat) : Nat :=
  blob.getD off 0 + 256 * blob.getD (off + 1) 0 + 65536 * blob.getD (off + 2) 0 +
    16777216 * blob.getD (off + 3) 0

/-- Read the `s32` at byte offset `off`. -/
def readS32 (blob : List Nat) (off : Nat) : Int := fromU32 (readU32 blob off)

/-- Read `n` consecutive `s32` values starting at byte offset `off`. -/
def readS32_list (blob : List Nat) (off n : Nat) : List Int :=
  (List.range n).map (fun i => readS32 blob (off + 4 * i))

/-- Read exactly `n` elements of a buffer (C array accesses `xs[0..n)`;
out-of-range reads, impossible in well-formed states, default to 0). -/
def read_exact (xs : List Int) (n : Nat) : List Int :=
  (List.range n).map (fun i => xs.getD i 0)

/-! ## Data structures (neural.c lines 253-372)

Only the fields the specified behaviors read or write are carried;
locks, NUMA bookkeeping, debugfs handles and the vestigial training
fields are omitted (they do not feed back into any modelled value). -/

/-- `neural_layer_t` (neural.c lines 278-305). -/
structure neural_layer where
  weights : List Int
  biases : List Int
  neurons : List Int
  input_size : Nat
  output_size : Nat
  activation_type : Nat
  weights_size : Nat
  checksum : Nat
  weights_validated : Bool
deriving DecidableEq, Inhabited

/-- `neural_stats_t` (neural.c lines 253-275); the per-CPU mirror and the
profiling counters are not modelled. -/
structure neural_stats where
  predictions_made : Nat
  total_inference_time_ns : Int
  cache_hits : Nat
  cache_misses : Nat
  errors_encountered : Nat
  avg_inference_time_us : Nat
  min_batch_time_us : Nat
  max_batch_time_us : Nat
  last_error_ts : Int
  last_error : String
deriving DecidableEq, Inhabited

/-- The anonymous `prediction_cache` struct inside `neural_network_t`
(neural.c lines 352-361). -/
structure prediction_cache_t where
  input_hash : Nat
  cached_output : List Int
  cache_time : Int
  valid : Bool
  output_size : Nat
  hit_count : Nat
  timeout_ns : Nat
deriving DecidableEq, Inhabited

/-- `neural_network_t` (neural.c lines 308-372). -/
structure neural_network_t where
  INPUT_LAYER : Nat
  HIDDEN_LAYER : Nat
  OUTPUT_LAYER : Nat
  num_layers : Nat
  layers : List neural_layer
  initialized : Bool
  stats : neural_stats
  prediction_cache : prediction_cache_t
deriving DecidableEq, Inhabited

/-- Error constants: the code returns `-EINVAL` (= −22) on validation
failures. -/
def EINVAL : Int := 22

/-- `NEURAL_MAX_WEIGHT_VALUE` = `INT_TO_FP(100)` (neural.c line 66). -/
def NEURAL_MAX_WEIGHT_VALUE : Int := INT_TO_FP 100

/-- `NEURAL_MIN_WEIGHT_VALUE` = `INT_TO_FP(-100)` (neural.c line 67). -/
def NEURAL_MIN_WEIGHT_VALUE : Int := INT_TO_FP (-100)

/-- `neural_validate_weights` (neural.c lines 205-218).  Defined in the
source as a "Security validation function" but never called from any
weight-storing path. -/
def neural_validate_weights (weights : List Int) (size : Nat) : Bool :=
  if size = 0 then false
  else (List.range size).all (fun i =>
    let w := weights.getD i 0
    ¬ (w > NEURAL_MAX_WEIGHT_VALUE ∨ w < NEURAL_MIN_WEIGHT_VALUE))

/-! ## Utility functions -/

/-- `neural_hash_input` (neural.c lines 1089-1097): `u32` polynomial hash
base 31 over the first `size` inputs; `(u32)input[i]` reinterprets the
`s32` element, and the `u32` arithmetic wraps modulo 2^32. -/
def neural_hash_input (input : List Int) (size : Nat) : Nat :=
  (List.range size).foldl (fun h i => (h * 31 + toU32 (input.getD i 0)) % 2 ^ 32) 0

/-- `neural_update_stats` (neural.c lines 1099-1114).  `ktime_get()` at
entry of the caller and inside this function become the explicit
`start_time`/`end_time` parameters.  The function increments
`predictions_made`, accumulates the inference time and recomputes the
running average; it never touches `min_batch_time_us` or
`max_batch_time_us`. -/
def neural_update_stats (nn : neural_network_t) (start_time end_time : Int) :
    neural_network_t :=
  let inference_time_ns := end_time - start_time
  let made := nn.stats.predictions_made + 1
  let total := nn.stats.total_inference_time_ns + inference_time_ns
  { nn with stats := { nn.stats with
      predictions_made := made
      total_inference_time_ns := total
      avg_inference_time_us := (Int.tdiv total ((made : Int) * 1000)).toNat % 2 ^ 32 } }

/-! ## Forward pass (neural.c lines 1313-1332) -/

/-- The neuron vector computed by `neural_layer_forward`: for each output
neuron `i` the `s64` accumulator starts at `biases[i]`, adds
`FP_MUL(input[j], weights[i*input_size + j])` for every `j`, is cast to
`s32`, and goes through the activation. -/
def forward_neurons (layer : neural_layer) (input : List Int) : List Int :=
  (List.range layer.output_size).map (fun i =>
    let sum := layer.biases.getD i 0 +
      ((List.range layer.input_size).map (fun j =>
        FP_MUL (input.getD j 0) (layer.weights.getD (i * layer.input_size + j) 0))).sum
    apply_activation (toS32 sum) layer.activation_type)

/-- `neural_layer_forward` (neural.c lines 1313-1332): overwrites the
layer's `neurons` buffer.  The C function only fails on NULL pointers,
which the embedding excludes, so no error value is produced. -/
def neural_layer_forward (layer : neural_layer) (input : List Int) : neural_layer :=
  { layer with neurons := forward_neurons layer input }

/-- The prediction loop of `neural_network_predict` (neural.c lines
1417-1423): run `neural_layer_forward` on the first `k` layers, feeding
each layer's `neurons` to the next. -/
def predict_layers : Nat → List neural_layer → List Int → List neural_layer
  | 0, ls, _ => ls
  | _ + 1, [], _ => []
  | k + 1, l :: ls, cur =>
    let l2 := neural_layer_forward l cur
    l2 :: predict_layers k ls l2.neurons

/-- `neural_network_predict` (neural.c lines 1404-1435).  Returns the C
return code, the contents written to the caller's `output` buffer
(`OUTPUT_LAYER` elements copied from the final layer's `neurons`), and
the updated network (new `neurons` buffers).  Note: the function updates
no statistics. -/
def neural_network_predict (nn : neural_network_t) (input : List Int) :
    Int × List Int × neural_network_t :=
  if ¬ nn.initialized then (-EINVAL, [], nn)
  else
    let layers2 := predict_layers nn.num_layers nn.layers input
    let current_output := (layers2.getD (nn.num_layers - 1) default).neurons
    (0, read_exact current_output nn.OUTPUT_LAYER, { nn with layers := layers2 })

/-- `neural_network_set_weights` (neural.c lines 1438-1464): copies
`input_size * output_size` weights and, when given, `output_size` biases
into the layer, verbatim — there is no range validation and no checksum
or cache update.  The NULL-`weights` check is modelled away (lists are
always present); `biases == NULL` becomes `none`. -/
def set_weights_layer (layer : neural_layer) (weights : List Int)
    (biases : Option (List Int)) : neural_layer :=
  { layer with
    weights := read_exact weights (layer.input_size * layer.output_size)
    biases := match biases with
      | some bs => read_exact bs layer.output_size
      | none => layer.biases }

def neural_network_set_weights (nn : neural_network_t) (layer_idx : Nat)
    (weights : List Int) (biases : Option (List Int)) : Int × neural_network_t :=
  if layer_idx ≥ nn.num_layers then (-EINVAL, nn)
  else
    let layer2 := set_weights_layer (nn.layers.getD layer_idx default) weights biases
    (0, { nn with layers := nn.layers.set layer_idx layer2 })

/-! ## Self test (neural.c lines 733-771) -/

/-- The per-layer checksum computed by `neural_self_test`:
`crc32(0, (u8*)layer->weights, layer->weights_size * sizeof(s32))`.
(The byte count is `weights_size * 4`, not the allocated size.) -/
def layer_crc (l : neural_layer) : Nat :=
  crc32 0 (List.take (l.weights_size * 4) (s32_list_bytes l.weights))

/-- `neural_record_error` (neural.c lines 718-731), without the
secure-mode printk side channel. -/
def neural_record_error (nn : neural_network_t) (msg : String) (now : Int) :
    neural_network_t :=
  { nn with stats := { nn.stats with
      errors_encountered := nn.stats.errors_encountered + 1
      last_error_ts := now
      last_error := msg } }

/-- The checksum loop of `neural_self_test` (neural.c lines 756-768):
walk the layers in order; a layer that is `weights_validated` with a
stored checksum different from the recomputed CRC aborts with failure
(layers before it keep their refreshed checksums, the rest are left
untouched); otherwise the checksum is refreshed and the layer marked
validated. -/
def self_test_layers : List neural_layer → Bool × List neural_layer
  | [] => (true, [])
  | l :: ls =>
    let c := layer_crc l
    if l.weights_validated ∧ l.checksum ≠ c then (false, l :: ls)
    else
      let l2 := { l with checksum := c, weights_validated := true }
      let r := self_test_layers ls
      (r.1, l2 :: r.2)

/-- `neural_self_test` (neural.c lines 733-771).  The "connectivity test"
in the source is dead code (`ret = 0` unconditionally, the prediction is
skipped); only the checksum loop remains.  On mismatch the function
records the error and returns `-EINVAL`; it does not change
`initialized`. -/
def neural_self_test (nn : neural_network_t) (now : Int) : Int × neural_network_t :=
  if ¬ nn.initialized then (-EINVAL, nn)
  else
    let r := self_test_layers (nn.layers.take nn.num_layers)
    let layers3 := r.2 ++ nn.layers.drop nn.num_layers
    if r.1 then (0, { nn with layers := layers3 })
    else (-EINVAL, neural_record_error { nn with layers := layers3 }
      "Layer checksum mismatch detected" now)

/-! ## Model codec (neural.c lines 1549-1683)

The wire format (x86-64 layout): a 32-byte header — `magic:u32 = 0xDEADBEEF`,
`version:u32 = 1`, `num_layers:u32`, `total_weights:u32`, `checksum:u32`,
4 padding bytes, `timestamp:u64` — followed, per layer, by
`input_size:u32, output_size:u32, activation_type:u32,
weights:s32[input_size*output_size], biases:s32[output_size]`, all
little-endian.  `checksum` is `crc32(0, ·)` over every byte after the
header. -/

/-- Byte size of `neural_model_header_t` (five `u32`, 4 bytes padding for
the 8-byte alignment of `timestamp`, one `u64`). -/
def HEADER_SIZE : Nat := 32

/-- Per-layer wire image written by `neural_network_save_model`. -/
def layer_blob_bytes (l : neural_layer) : List Nat :=
  u32_bytes l.input_size ++ u32_bytes l.output_size ++ u32_bytes l.activation_type ++
    s32_list_bytes (read_exact l.weights (l.input_size * l.output_size)) ++
    s32_list_bytes (read_exact l.biases l.output_size)

/-- Concatenated layer images (everything after the header). -/
def body_bytes (ls : List neural_layer) : List Nat := (ls.map layer_blob_bytes).flatten

/-- `neural_network_save_model` (neural.c lines 1550-1623).  The
`ktime_get_real_ns()` timestamp is the explicit `ts` parameter; the
padding bytes of the on-stack header struct are modelled as 0 (nothing
reads them).  The header's checksum field is backpatched with the CRC of
the body.  Allocation failure (`-ENOMEM`) is not modelled; the result is
the return code and the written blob. -/
def neural_network_save_model (nn : neural_network_t) (ts : Nat) : Int × List Nat :=
  let ls := nn.layers.take nn.num_layers
  let body := body_bytes ls
  let total_weights := (ls.map (fun l => l.input_size * l.output_size)).sum
  let ck := crc32 0 body
  (0, u32_bytes 0xDEADBEEF ++ u32_bytes 1 ++ u32_bytes nn.num_layers ++
    u32_bytes total_weights ++ u32_bytes ck ++ [0, 0, 0, 0] ++ u64_bytes ts ++ body)

/-- The layer loop of `neural_network_load_model` (neural.c lines
1647-1679): for each of the first `k` layers, stop if fewer than 12
metadata bytes remain; parse `input_size`/`output_size`/`activation_type`;
a shape mismatch skips the layer (`continue`, with the offset advanced
past the metadata only); on a match the activation is stored (through
the `u8` field, hence mod 256) and the weight and bias arrays are copied
when they fit inside the blob. -/
def load_layers (blob : List Nat) (size : Nat) :
    Nat → Nat → List neural_layer → List neural_layer
  | _, _, [] => []
  | 0, _, ls => ls
  | k + 1, offset, l :: ls =>
    if size < offset + 12 then l :: ls
    else
      let in_sz := readU32 blob offset
      let out_sz := readU32 blob (offset + 4)
      let act := readU32 blob (offset + 8)
      let offset2 := offset + 12
      if in_sz = l.input_size ∧ out_sz = l.output_size then
        let l2 := { l with activation_type := act % 256 }
        let wbytes := in_sz * out_sz * 4
        let l3 := if offset2 + wbytes ≤ size then
            { l2 with weights := readS32_list blob offset2 (in_sz * out_sz) } else l2
        let offset3 := if offset2 + wbytes ≤ size then offset2 + wbytes else offset2
        let l4 := if offset3 + out_sz * 4 ≤ size then
            { l3 with biases := readS32_list blob offset3 out_sz } else l3
        let offset4 := if offset3 + out_sz * 4 ≤ size then offset3 + out_sz * 4 else offset3
        l4 :: load_layers blob size k offset4 ls
      else
        l :: load_layers blob size k offset2 ls

/-- `neural_network_load_model` (neural.c lines 1625-1683): rejects blobs
shorter than the header, rejects a wrong magic or version, recomputes
the CRC over everything after the header and rejects a mismatch — all
before touching any layer — then runs the layer loop over the first
`min(nn->num_layers, header.num_layers)` layers. -/
def neural_network_load_model (nn : neural_network_t) (blob : List Nat) :
    Int × neural_network_t :=
  if blob.length < HEADER_SIZE then (-EINVAL, nn)
  else if readU32 blob 0 ≠ 0xDEADBEEF ∨ readU32 blob 4 ≠ 1 then (-EINVAL, nn)
  else if crc32 0 (blob.drop HEADER_SIZE) ≠ readU32 blob 16 then (-EINVAL, nn)
  else
    let k := min nn.num_layers (readU32 blob 8)
    let layers2 :=
      load_layers blob blob.length k HEADER_SIZE (nn.layers.take k) ++ nn.layers.drop k
    (0, { nn with layers := layers2 })

/-! ## Cached prediction (neural.c lines 1696-1739) -/

/-- `neural_network_predict_cached` (neural.c lines 1696-1739).  Time is
explicit: `now_start` is the `ktime_get()` taken at entry, `now_cache`
the one taken when a fresh result is stored, `now_end` the one inside
`neural_update_stats`.  The cache hit test is
`cache.valid && cache.input_hash == hash` — the stored `timeout_ns` and
`cache_time` are never consulted.  On a hit the cached output is copied
out and `cache_hits` incremented; otherwise `cache_misses` is
incremented, `neural_network_predict` runs, and a successful result is
stored into the slot (hash, output copy, `cache_time`, `valid`).  Both
paths end in `neural_update_stats`.  (The `cached_output == NULL`
re-allocation branch is modelled away: the list is always present.) -/
def neural_network_predict_cached (nn : neural_network_t) (input : List Int)
    (now_start now_cache now_end : Int) : Int × List Int × neural_network_t :=
  if ¬ nn.initialized then (-EINVAL, [], nn)
  else
    let input_hash := neural_hash_input input nn.INPUT_LAYER
    if nn.prediction_cache.valid ∧ nn.prediction_cache.input_hash = input_hash then
      let output := read_exact nn.prediction_cache.cached_output nn.OUTPUT_LAYER
      let nn2 := { nn with stats := { nn.stats with cache_hits := nn.stats.cache_hits + 1 } }
      (0, output, neural_update_stats nn2 now_start now_end)
    else
      let nn2 := { nn with stats := { nn.stats with cache_misses := nn.stats.cache_misses + 1 } }
      let pr := neural_network_predict nn2 input
      let nn4 := if pr.1 = 0 then
          { pr.2.2 with prediction_cache := { (pr.2.2).prediction_cache with
              input_hash := input_hash
              cached_output := read_exact pr.2.1 (pr.2.2).OUTPUT_LAYER
              cache_time := now_cache
              valid := true } }
        else pr.2.2
      (pr.1, pr.2.1, neural_update_stats nn4 now_start now_end)

/-! ## Specification-side descriptions and congruence relations -/

/-- Sequential forward propagation as a plain recursion: feed the input
through the layers in order, each layer's output becoming the next
layer's input.  This is the reference description of the prediction loop
used to state refinement theorems about `neural_network_predict`. -/
def chain_forward : List neural_layer → List Int → List Int
  | [], cur => cur
  | l :: ls, cur => chain_forward ls (forward_neurons l cur)

/-- The fields of a layer that the forward pass reads. -/
def coreEq (a b : neural_layer) : Prop :=
  a.weights = b.weights ∧ a.biases = b.biases ∧ a.input_size = b.input_size ∧
    a.output_size = b.output_size ∧ a.activation_type = b.activation_type

/-- Equality of layers up to the integrity fields (`checksum`,
`weights_validated`) — exactly what a self-test pass may change. -/
def stEq (a b : neural_layer) : Prop :=
  coreEq a b ∧ a.neurons = b.neurons

/-- Transplanting the saved fields (activation, weights, biases) of one
layer onto another: the effect of a shape-matching model load. -/
def transplant (o f : neural_layer) : neural_layer :=
  { f with activation_type := o.activation_type, weights := o.weights, biases := o.biases }

/-- A layer whose buffers have the lengths its sizes announce and whose
stored values fit in `s32` (every layer the C module builds satisfies
this). -/
def wfLayer (l : neural_layer) : Prop :=
  l.weights.length = l.input_size * l.output_size ∧
    l.biases.length = l.output_size ∧
    l.input_size < 2 ^ 32 ∧ l.output_size < 2 ^ 32 ∧ l.activation_type < 256 ∧
    (∀ w ∈ l.weights, -2 ^ 31 ≤ w ∧ w < 2 ^ 31) ∧
    (∀ b ∈ l.biases, -2 ^ 31 ≤ b ∧ b < 2 ^ 31)

/-- Shape agreement between two layers (matching `input_size` and
`output_size`). -/
def shapeEq (a b : neural_layer) : Prop :=
  a.input_size = b.input_size ∧ a.output_size = b.output_size

instance (l : neural_layer) : Decidable (wfLayer l) := by
  unfold wfLayer
  infer_instance

/-- What the model-load loop may do to a single live layer `a`,
producing `b`: either skip it entirely, or overwrite it in place —
preserving its shape, its `neurons` buffer and its integrity fields,
and writing only the activation tag, a weight array whose length equals
the layer's own `input_size * output_size` (the loop overwrites only
when the blob's sizes equal the live layer's sizes), and a bias array
of length `output_size`. -/
def loadRel (a b : neural_layer) : Prop :=
  b = a ∨
    (b.input_size = a.input_size ∧ b.output_size = a.output_size ∧
      b.neurons = a.neurons ∧ b.checksum = a.checksum ∧
      b.weights_validated = a.weights_validated ∧ b.weights_size = a.weights_size ∧
      (b.weights = a.weights ∨ b.weights.length = a.input_size * a.output_size) ∧
      (b.biases = a.biases ∨ b.biases.length = a.output_size))

/-- A network whose bookkeeping matches its buffers: the layer count is
the length of the layer list (and fits `u32`), and every layer is
well-formed.  Every network the C module constructs satisfies this. -/
def wfNetwork (nn : neural_network_t) : Prop :=
  nn.num_layers = nn.layers.length ∧ nn.num_layers < 2 ^ 32 ∧
    ∀ l ∈ nn.layers, wfLayer l

/-- Two networks of identical shape: same layer count, same declared
output width, and pairwise matching layer sizes. -/
def sameShape (a b : neural_network_t) : Prop :=
  a.num_layers = b.num_layers ∧ a.OUTPUT_LAYER = b.OUTPUT_LAYER ∧
    List.Forall₂ shapeEq a.layers b.layers

/-! ## Concrete states used by the witnesses and counterexamples -/

/-- A zeroed statistics block (the state right after
`neural_network_init`). -/
def stats0 : neural_stats := ⟨0, 0, 0, 0, 0, 0, 4294967295, 0, 0, "No errors"⟩

/-- An empty, invalid prediction-cache slot with the default 1 s
timeout. -/
def cache0 : prediction_cache_t := ⟨0, [0], 0, false, 1, 0, 1000000000⟩

/-- A 1×1 linear layer with weight 1.0. -/
def layA : neural_layer := ⟨[65536], [0], [0], 1, 1, 2, 0, 0, false⟩

/-- A 1×1 linear layer with weight 2.0. -/
def layB : neural_layer := ⟨[131072], [0], [0], 1, 1, 2, 0, 0, false⟩

/-- A 1×1 ReLU layer with weight 0 (a freshly zeroed layer). -/
def layZ : neural_layer := ⟨[0], [0], [0], 1, 1, 0, 0, 0, false⟩

/-- A 1×1 layer marked `weights_validated` whose stored checksum (1)
differs from the CRC of its weight bytes (`crc32` of four zero bytes is
0): the self-test mismatch state. -/
def layBad : neural_layer := ⟨[0], [0], [0], 1, 1, 2, 1, 1, true⟩

/-- Two-layer 1→1→1 network (weights 1.0 then 2.0, linear): doubles its
input. -/
def nnA : neural_network_t := ⟨1, 1, 1, 2, [layA, layB], true, stats0, cache0⟩

/-- A freshly constructed network of the same shape as `nnA` with zeroed
weights. -/
def freshA : neural_network_t := ⟨1, 1, 1, 2, [layZ, layZ], true, stats0, cache0⟩

/-- A network whose single layer fails the checksum comparison. -/
def nnBad : neural_network_t := ⟨1, 1, 1, 1, [layBad], true, stats0, cache0⟩

/-- A network holding a valid cache entry for input `[65536]` (hash
65536) captured at time 0 with output `[42]` and a 1 s TTL. -/
def nnC : neural_network_t :=
  ⟨1, 1, 1, 1, [layA], true, stats0, ⟨65536, [42], 0, true, 1, 0, 1000000000⟩⟩

/-! # Helper lemmas -/

/-! ## Byte-level reading -/

theorem getD_drop (l : List Nat) (n k : Nat) :
    (l.drop n).getD k 0 = l.getD (n + k) 0 := by
  simp [List.getD_eq_getElem?_getD, List.getElem?_drop]

theorem u32_bytes_length (v : Nat) : (u32_bytes v).length = 4 := rfl

theorem s32_bytes_length (x : Int) : (s32_bytes x).length = 4 := rfl

theorem s32_list_bytes_nil : s32_list_bytes [] = [] := rfl

theorem s32_list_bytes_cons (x : Int) (xs : List Int) :
    s32_list_bytes (x :: xs) = s32_bytes x ++ s32_list_bytes xs := by
  simp [s32_list_bytes]

theorem s32_list_bytes_length (xs : List Int) :
    (s32_list_bytes xs).length = 4 * xs.length := by
  induction xs with
  | nil => rfl
  | cons x xs ih =>
    rw [s32_list_bytes_cons, List.length_append, s32_bytes_length, ih, List.length_cons]
    ring

theorem read_exact_length (xs : List Int) (n : Nat) : (read_exact xs n).length = n := by
  simp [read_exact]

/-- Reading the `u32` whose bytes sit at offset `off` recovers the value
(mod 2^32). -/
theorem readU32_of_drop (blob : List Nat) (off : Nat) (v : Nat) {rest : List Nat}
    (h : blob.drop off = u32_bytes v ++ rest) : readU32 blob off = v % 2 ^ 32 := by
  have h0 : blob.getD off 0 = v % 256 := by
    have := getD_drop blob off 0
    rw [h] at this
    simpa using this.symm
  have h1 : blob.getD (off + 1) 0 = v / 256 % 256 := by
    have := getD_drop blob off 1
    rw [h] at this
    simpa [u32_bytes] using this.symm
  have h2 : blob.getD (off + 2) 0 = v / 65536 % 256 := by
    have := getD_drop blob off 2
    rw [h] at this
    simpa [u32_bytes] using this.symm
  have h3 : blob.getD (off + 3) 0 = v / 16777216 % 256 := by
    have := getD_drop blob off 3
    rw [h] at this
    simpa [u32_bytes] using this.symm
  unfold readU32
  rw [h0, h1, h2, h3]
  omega

theorem toU32_lt (x : Int) : toU32 x < 2 ^ 32 := by
  unfold toU32
  omega

/-- Storing an in-range `s32` and reading it back is the identity. -/
theorem fromU32_toU32 (x : Int) (hlo : -2 ^ 31 ≤ x) (hhi : x < 2 ^ 31) :
    fromU32 (toU32 x) = x := by
  unfold fromU32 toU32
  split <;> omega

theorem readS32_of_drop (blob : List Nat) (off : Nat) (x : Int) {rest : List Nat}
    (h : blob.drop off = s32_bytes x ++ rest) (hlo : -2 ^ 31 ≤ x) (hhi : x < 2 ^ 31) :
    readS32 blob off = x := by
  unfold readS32
  rw [readU32_of_drop blob off (toU32 x) h,
    Nat.mod_eq_of_lt (toU32_lt x)]
  exact fromU32_toU32 x hlo hhi

theorem readS32_list_zero (blob : List Nat) (off : Nat) :
    readS32_list blob off 0 = [] := rfl

theorem readS32_list_succ (blob : List Nat) (off n : Nat) :
    readS32_list blob off (n + 1) = readS32 blob off :: readS32_list blob (off + 4) n := by
  unfold readS32_list
  rw [List.range_succ_eq_map, List.map_cons, List.map_map]
  refine congrArg₂ _ (by simp) (List.map_congr_left ?_)
  intro i _
  have : off + 4 * Nat.succ i = off + 4 + 4 * i := by omega
  simp [Function.comp, this]

/-- Reading back a serialized `s32` array recovers it, provided every
element is in `s32` range. -/
theorem readS32_list_of_drop (xs : List Int) (blob : List Nat) (off : Nat)
    {rest : List Nat} (h : blob.drop off = s32_list_bytes xs ++ rest)
    (hr : ∀ x ∈ xs, -2 ^ 31 ≤ x ∧ x < 2 ^ 31) :
    readS32_list blob off xs.length = xs := by
  induction xs generalizing off rest with
  | nil => rfl
  | cons x xs ih =>
    rw [s32_list_bytes_cons, List.append_assoc] at h
    have hx := hr x (by simp)
    have hhead := readS32_of_drop blob off x h hx.1 hx.2
    have htail : blob.drop (off + 4) = s32_list_bytes xs ++ rest := by
      have : blob.drop (off + 4) = (blob.drop off).drop 4 := by
        rw [List.drop_drop]
      rw [this, h]
      have h4 : (4 : Nat) = (s32_bytes x).length := (s32_bytes_length x).symm
      rw [h4, List.drop_left]
    rw [List.length_cons, readS32_list_succ, hhead,
      ih (off + 4) htail (fun y hy => hr y (by simp [hy]))]

/-! ## CRC32 bounds -/

theorem crc32_step_lt (c : Nat) (h : c < 2 ^ 32) : crc32_step c < 2 ^ 32 := by
  unfold crc32_step
  split
  · exact Nat.xor_lt_two_pow (by omega) (by norm_num)
  · omega

theorem crc32_byte_lt (crc b : Nat) (hc : crc < 2 ^ 32) (hb : b < 2 ^ 32) :
    crc32_byte crc b < 2 ^ 32 := by
  unfold crc32_byte
  have h0 : crc ^^^ b < 2 ^ 32 := Nat.xor_lt_two_pow hc hb
  exact crc32_step_lt _ (crc32_step_lt _ (crc32_step_lt _ (crc32_step_lt _
    (crc32_step_lt _ (crc32_step_lt _ (crc32_step_lt _ (crc32_step_lt _ h0)))))))

theorem crc32_lt (bytes : List Nat) (seed : Nat) (hs : seed < 2 ^ 32)
    (hb : ∀ b ∈ bytes, b < 2 ^ 32) : crc32 seed bytes < 2 ^ 32 := by
  induction bytes generalizing seed with
  | nil => exact hs
  | cons b bs ih =>
    exact ih (crc32_byte seed b) (crc32_byte_lt seed b hs (hb b (by simp)))
      (fun y hy => hb y (List.mem_cons_of_mem b hy))

theorem u32_bytes_mem_lt (v : Nat) : ∀ b ∈ u32_bytes v, b < 256 := by
  intro b hb
  simp [u32_bytes] at hb
  rcases hb with h | h | h | h <;> omega

theorem s32_list_bytes_mem_lt (xs : List Int) : ∀ b ∈ s32_list_bytes xs, b < 256 := by
  intro b hb
  induction xs with
  | nil => simp [s32_list_bytes] at hb
  | cons x xs ih =>
    rw [s32_list_bytes_cons, List.mem_append] at hb
    rcases hb with h | h
    · exact u32_bytes_mem_lt _ b h
    · exact ih h

theorem layer_blob_bytes_mem_lt (l : neural_layer) :
    ∀ b ∈ layer_blob_bytes l, b < 256 := by
  intro b hb
  simp only [layer_blob_bytes, List.mem_append] at hb
  rcases hb with (((h | h) | h) | h) | h
  · exact u32_bytes_mem_lt _ b h
  · exact u32_bytes_mem_lt _ b h
  · exact u32_bytes_mem_lt _ b h
  · exact s32_list_bytes_mem_lt _ b h
  · exact s32_list_bytes_mem_lt _ b h

theorem body_bytes_mem_lt (ls : List neural_layer) : ∀ b ∈ body_bytes ls, b < 256 := by
  induction ls with
  | nil => intro b hb; simp [body_bytes] at hb
  | cons l ls ih =>
    intro b hb
    rw [body_bytes, List.map_cons, List.flatten_cons, List.mem_append] at hb
    rcases hb with h | h
    · exact layer_blob_bytes_mem_lt l b h
    · exact ih b h

/-! ## Forward-pass congruence -/

theorem coreEq_refl (l : neural_layer) : coreEq l l := ⟨rfl, rfl, rfl, rfl, rfl⟩

theorem stEq_refl (l : neural_layer) : stEq l l := ⟨coreEq_refl l, rfl⟩

theorem forall2_append {α : Type} {R : α → α → Prop} {l1 l2 l3 l4 : List α}
    (h1 : List.Forall₂ R l1 l2) (h2 : List.Forall₂ R l3 l4) :
    List.Forall₂ R (l1 ++ l3) (l2 ++ l4) := List.rel_append h1 h2

/-- The forward pass reads only the core fields of a layer. -/
theorem forward_neurons_congr {a b : neural_layer} (h : coreEq a b) (input : List Int) :
    forward_neurons a input = forward_neurons b input := by
  obtain ⟨hw, hb, hi, ho, ha⟩ := h
  unfold forward_neurons
  rw [hw, hb, hi, ho, ha]

theorem chain_forward_congr {ls1 ls2 : List neural_layer}
    (h : List.Forall₂ coreEq ls1 ls2) :
    ∀ cur, chain_forward ls1 cur = chain_forward ls2 cur := by
  induction h with
  | nil => intro cur; rfl
  | cons hab _ ih =>
    intro cur
    unfold chain_forward
    rw [forward_neurons_congr hab cur]
    exact ih _

theorem stEq_forward {a b : neural_layer} (h : stEq a b) (cur : List Int) :
    stEq (neural_layer_forward a cur) (neural_layer_forward b cur) := by
  obtain ⟨⟨hw, hb, hi, ho, ha⟩, _⟩ := h
  refine ⟨⟨hw, hb, hi, ho, ha⟩, ?_⟩
  show forward_neurons a cur = forward_neurons b cur
  exact forward_neurons_congr ⟨hw, hb, hi, ho, ha⟩ cur

theorem predict_layers_stEq {ls1 ls2 : List neural_layer}
    (h : List.Forall₂ stEq ls1 ls2) :
    ∀ k cur, List.Forall₂ stEq (predict_layers k ls1 cur) (predict_layers k ls2 cur) := by
  induction h with
  | nil => intro k cur; cases k <;> exact List.Forall₂.nil
  | @cons a b la lb hab _ ih =>
    intro k cur
    match k with
    | 0 => exact List.forall₂_cons.2 ⟨hab, by assumption⟩
    | k + 1 =>
      have hf := stEq_forward hab cur
      show List.Forall₂ stEq
        (neural_layer_forward a cur ::
          predict_layers k la (neural_layer_forward a cur).neurons)
        (neural_layer_forward b cur ::
          predict_layers k lb (neural_layer_forward b cur).neurons)
      refine List.forall₂_cons.2 ⟨hf, ?_⟩
      rw [hf.2]
      exact ih k _

theorem forall2_getD_neurons {ls1 ls2 : List neural_layer}
    (h : List.Forall₂ stEq ls1 ls2) (i : Nat) :
    (ls1.getD i default).neurons = (ls2.getD i default).neurons := by
  induction h generalizing i with
  | nil => rfl
  | cons hab _ ih =>
    match i with
    | 0 => exact hab.2
    | i + 1 => rw [List.getD_cons_succ, List.getD_cons_succ]; exact ih i

/-- Predictions agree on networks whose layers are equal up to the
integrity fields. -/
theorem predict_congr {nn1 nn2 : neural_network_t}
    (hinit : nn2.initialized = nn1.initialized)
    (hnum : nn2.num_layers = nn1.num_layers)
    (hout : nn2.OUTPUT_LAYER = nn1.OUTPUT_LAYER)
    (hlay : List.Forall₂ stEq nn1.layers nn2.layers) (input : List Int) :
    (neural_network_predict nn2 input).1 = (neural_network_predict nn1 input).1 ∧
      (neural_network_predict nn2 input).2.1 = (neural_network_predict nn1 input).2.1 := by
  unfold neural_network_predict
  rw [hinit, hnum, hout]
  by_cases hi : nn1.initialized
  · rw [if_neg (by simp [hi]), if_neg (by simp [hi])]
    refine ⟨rfl, ?_⟩
    show read_exact ((predict_layers nn1.num_layers nn2.layers input).getD
        (nn1.num_layers - 1) default).neurons nn1.OUTPUT_LAYER =
      read_exact ((predict_layers nn1.num_layers nn1.layers input).getD
        (nn1.num_layers - 1) default).neurons nn1.OUTPUT_LAYER
    rw [forall2_getD_neurons (predict_layers_stEq hlay nn1.num_layers input)
      (nn1.num_layers - 1)]
  · rw [if_pos (by simp [hi]), if_pos (by simp [hi])]
    exact ⟨rfl, rfl⟩

/-! ## Self-test structure -/

theorem self_test_layers_stEq (ls : List neural_layer) :
    List.Forall₂ stEq ls (self_test_layers ls).2 := by
  induction ls with
  | nil => exact List.Forall₂.nil
  | cons l ls ih =>
    show List.Forall₂ stEq (l :: ls) (self_test_layers (l :: ls)).2
    unfold self_test_layers
    by_cases hc : l.weights_validated ∧ l.checksum ≠ layer_crc l
    · rw [if_pos hc]
      exact List.forall₂_same.2 (fun x _ => stEq_refl x)
    · rw [if_neg hc]
      exact List.forall₂_cons.2 ⟨⟨⟨rfl, rfl, rfl, rfl, rfl⟩, rfl⟩, ih⟩

theorem self_test_initialized (nn : neural_network_t) (now : Int) :
    ((neural_self_test nn now).2).initialized = nn.initialized := by
  unfold neural_self_test
  by_cases hi : nn.initialized
  · simp only [hi, not_true, if_false, ite_false]
    by_cases hok : (self_test_layers (nn.layers.take nn.num_layers)).1
    · simp [hok]
    · simp [hok, neural_record_error]
  · simp [hi]

theorem self_test_layers_frame (nn : neural_network_t) (now : Int) :
    List.Forall₂ stEq nn.layers ((neural_self_test nn now).2).layers := by
  unfold neural_self_test
  by_cases hi : nn.initialized
  · simp only [hi, not_true, if_false, ite_false]
    have hbase : List.Forall₂ stEq nn.layers
        ((self_test_layers (nn.layers.take nn.num_layers)).2 ++
          nn.layers.drop nn.num_layers) := by
      have h1 := self_test_layers_stEq (nn.layers.take nn.num_layers)
      have h2 : List.Forall₂ stEq (nn.layers.drop nn.num_layers)
          (nn.layers.drop nn.num_layers) :=
        List.forall₂_same.2 (fun x _ => stEq_refl x)
      have := forall2_append h1 h2
      rwa [List.take_append_drop] at this
    by_cases hok : (self_test_layers (nn.layers.take nn.num_layers)).1
    · simpa [hok] using hbase
    · simpa [hok, neural_record_error] using hbase
  · simp only [hi, if_true, ite_true]
    exact List.forall₂_same.2 (fun x _ => stEq_refl x)

theorem self_test_num_layers (nn : neural_network_t) (now : Int) :
    ((neural_self_test nn now).2).num_layers = nn.num_layers := by
  unfold neural_self_test
  by_cases hi : nn.initialized
  · by_cases hok : (self_test_layers (nn.layers.take nn.num_layers)).1 <;>
      simp [hi, hok, neural_record_error]
  · simp [hi]

theorem self_test_OUTPUT (nn : neural_network_t) (now : Int) :
    ((neural_self_test nn now).2).OUTPUT_LAYER = nn.OUTPUT_LAYER := by
  unfold neural_self_test
  by_cases hi : nn.initialized
  · by_cases hok : (self_test_layers (nn.layers.take nn.num_layers)).1 <;>
      simp [hi, hok, neural_record_error]
  · simp [hi]

/-- On failure `neural_self_test` returns `-EINVAL`. -/
theorem self_test_fail_code (nn : neural_network_t) (now : Int)
    (h : (neural_self_test nn now).1 ≠ 0) : (neural_self_test nn now).1 = -EINVAL := by
  unfold neural_self_test at *
  by_cases hi : nn.initialized
  · by_cases hok : (self_test_layers (nn.layers.take nn.num_layers)).1
    · rw [if_neg (by simp [hi]), if_pos hok] at h
      exact absurd rfl h
    · rw [if_neg (by simp [hi]), if_neg hok]
  · rw [if_pos (by simp [hi])]

/-! ## Chain refinement of the prediction loop -/

theorem neural_layer_forward_neurons (l : neural_layer) (cur : List Int) :
    (neural_layer_forward l cur).neurons = forward_neurons l cur := rfl

/-- Running the indexed prediction loop over a whole nonempty layer list
and taking the last layer's neurons is exactly sequential forward
propagation. -/
theorem predict_last_neurons (ls : List neural_layer) (cur : List Int)
    (hne : ls ≠ []) :
    ((predict_layers ls.length ls cur).getD (ls.length - 1) default).neurons =
      chain_forward ls cur := by
  induction ls generalizing cur with
  | nil => exact absurd rfl hne
  | cons l ls ih =>
    match ls with
    | [] =>
      show (forward_neurons l cur : List Int) = chain_forward [] (forward_neurons l cur)
      rfl
    | l2 :: ls2 =>
      show ((neural_layer_forward l cur ::
          predict_layers (l2 :: ls2).length (l2 :: ls2)
            (neural_layer_forward l cur).neurons).getD
          ((l :: l2 :: ls2).length - 1) default).neurons =
        chain_forward (l2 :: ls2) (forward_neurons l cur)
      have hih := ih (forward_neurons l cur) (by simp)
      simp only [List.length_cons, Nat.add_sub_cancel] at hih ⊢
      simp only [List.getD_cons_succ]
      rw [neural_layer_forward_neurons]
      exact hih

/-! ## Structure of a saved blob -/

theorem u64_bytes_length (v : Nat) : (u64_bytes v).length = 8 := rfl

theorem drop4_u32 (v : Nat) (rest : List Nat) : (u32_bytes v ++ rest).drop 4 = rest := by
  rw [show (4 : Nat) = (u32_bytes v).length from rfl, List.drop_left]

theorem readS32_list_length (blob : List Nat) (off n : Nat) :
    (readS32_list blob off n).length = n := by
  simp [readS32_list]

/-- The blob written by `neural_network_save_model`, spelled out. -/
theorem save_blob_eq (nn : neural_network_t) (ts : Nat) :
    (neural_network_save_model nn ts).2 =
      u32_bytes 0xDEADBEEF ++ (u32_bytes 1 ++ (u32_bytes nn.num_layers ++
        (u32_bytes ((nn.layers.take nn.num_layers).map
            (fun l => l.input_size * l.output_size)).sum ++
          (u32_bytes (crc32 0 (body_bytes (nn.layers.take nn.num_layers))) ++
            ([0, 0, 0, 0] ++ (u64_bytes ts ++
              body_bytes (nn.layers.take nn.num_layers))))))) := by
  unfold neural_network_save_model
  simp [List.append_assoc]

theorem save_drop_32 (nn : neural_network_t) (ts : Nat) :
    ((neural_network_save_model nn ts).2).drop 32 =
      body_bytes (nn.layers.take nn.num_layers) := by
  rw [save_blob_eq]
  rw [show (32 : Nat) = 4 + 28 from rfl, ← List.drop_drop, drop4_u32]
  rw [show (28 : Nat) = 4 + 24 from rfl, ← List.drop_drop, drop4_u32]
  rw [show (24 : Nat) = 4 + 20 from rfl, ← List.drop_drop, drop4_u32]
  rw [show (20 : Nat) = 4 + 16 from rfl, ← List.drop_drop, drop4_u32]
  rw [show (16 : Nat) = 4 + 12 from rfl, ← List.drop_drop, drop4_u32]
  rw [show (12 : Nat) = 4 + 8 from rfl, ← List.drop_drop]
  rw [show (([0, 0, 0, 0] : List Nat) ++ (u64_bytes ts ++
      body_bytes (nn.layers.take nn.num_layers))).drop 4 =
    u64_bytes ts ++ body_bytes (nn.layers.take nn.num_layers) from rfl]
  rw [show (8 : Nat) = (u64_bytes ts).length from rfl, List.drop_left]

theorem save_drop_16 (nn : neural_network_t) (ts : Nat) :
    ((neural_network_save_model nn ts).2).drop 16 =
      u32_bytes (crc32 0 (body_bytes (nn.layers.take nn.num_layers))) ++
        ([0, 0, 0, 0] ++ (u64_bytes ts ++ body_bytes (nn.layers.take nn.num_layers))) := by
  rw [save_blob_eq]
  rw [show (16 : Nat) = 4 + 12 from rfl, ← List.drop_drop, drop4_u32]
  rw [show (12 : Nat) = 4 + 8 from rfl, ← List.drop_drop, drop4_u32]
  rw [show (8 : Nat) = 4 + 4 from rfl, ← List.drop_drop, drop4_u32, drop4_u32]

theorem save_crc_lt (nn : neural_network_t) :
    crc32 0 (body_bytes (nn.layers.take nn.num_layers)) < 2 ^ 32 :=
  crc32_lt _ 0 (by norm_num)
    (fun b hb => lt_trans (body_bytes_mem_lt _ b hb) (by norm_num))

theorem save_readU32_0 (nn : neural_network_t) (ts : Nat) :
    readU32 (neural_network_save_model nn ts).2 0 = 0xDEADBEEF := by
  have h := readU32_of_drop (neural_network_save_model nn ts).2 0 0xDEADBEEF
    (by rw [List.drop_zero, save_blob_eq])
  rw [h]
  norm_num

theorem save_readU32_4 (nn : neural_network_t) (ts : Nat) :
    readU32 (neural_network_save_model nn ts).2 4 = 1 := by
  have h := readU32_of_drop (neural_network_save_model nn ts).2 4 1
    (by rw [save_blob_eq, drop4_u32])
  rw [h]
  norm_num

theorem save_readU32_8 (nn : neural_network_t) (ts : Nat) :
    readU32 (neural_network_save_model nn ts).2 8 = nn.num_layers % 2 ^ 32 := by
  exact readU32_of_drop (neural_network_save_model nn ts).2 8 nn.num_layers
    (by rw [save_blob_eq, show (8 : Nat) = 4 + 4 from rfl, ← List.drop_drop,
      drop4_u32, drop4_u32])

theorem save_readU32_16 (nn : neural_network_t) (ts : Nat) :
    readU32 (neural_network_save_model nn ts).2 16 =
      crc32 0 (body_bytes (nn.layers.take nn.num_layers)) := by
  have h := readU32_of_drop (neural_network_save_model nn ts).2 16
    (crc32 0 (body_bytes (nn.layers.take nn.num_layers))) (save_drop_16 nn ts)
  rw [h, Nat.mod_eq_of_lt (save_crc_lt nn)]

theorem save_length_ge (nn : neural_network_t) (ts : Nat) :
    32 ≤ ((neural_network_save_model nn ts).2).length := by
  rw [save_blob_eq]
  simp [u32_bytes, u64_bytes]

/-! ## Byte corruption -/

theorem getD_set_ne (l : List Nat) (i j : Nat) (x : Nat) (h : i ≠ j) :
    (l.set i x).getD j 0 = l.getD j 0 := by
  simp [List.getD_eq_getElem?_getD, List.getElem?_set_ne h]

theorem getD_set_self (l : List Nat) (i : Nat) (x : Nat) (h : i < l.length) :
    (l.set i x).getD i 0 = x := by
  simp [List.getD_eq_getElem?_getD, List.getElem?_set_self h]

theorem readU32_set_outside (l : List Nat) (i off : Nat) (x : Nat)
    (h : i < off ∨ off + 4 ≤ i) : readU32 (l.set i x) off = readU32 l off := by
  unfold readU32
  rw [getD_set_ne l i off x (by omega), getD_set_ne l i (off + 1) x (by omega),
    getD_set_ne l i (off + 2) x (by omega), getD_set_ne l i (off + 3) x (by omega)]

/-- Overwriting one byte of the stored 32-bit checksum field with a
different byte value changes the parsed checksum. -/
theorem readU32_set_inside_ne (l : List Nat) (off j : Nat) (x : Nat)
    (hj : j < 4) (hlen : off + 4 ≤ l.length) (hx : x ≠ l.getD (off + j) 0) :
    readU32 (l.set (off + j) x) off ≠ readU32 l off := by
  unfold readU32
  interval_cases j
  · simp only [Nat.add_zero] at hx ⊢
    intro heq
    rw [getD_set_self l off x (by omega), getD_set_ne l off (off + 1) x (by omega),
      getD_set_ne l off (off + 2) x (by omega),
      getD_set_ne l off (off + 3) x (by omega)] at heq
    exact hx (by omega)
  · intro heq
    rw [getD_set_self l (off + 1) x (by omega), getD_set_ne l (off + 1) off x (by omega),
      getD_set_ne l (off + 1) (off + 2) x (by omega),
      getD_set_ne l (off + 1) (off + 3) x (by omega)] at heq
    exact hx (by omega)
  · intro heq
    rw [getD_set_self l (off + 2) x (by omega), getD_set_ne l (off + 2) off x (by omega),
      getD_set_ne l (off + 2) (off + 1) x (by omega),
      getD_set_ne l (off + 2) (off + 3) x (by omega)] at heq
    exact hx (by omega)
  · intro heq
    rw [getD_set_self l (off + 3) x (by omega), getD_set_ne l (off + 3) off x (by omega),
      getD_set_ne l (off + 3) (off + 1) x (by omega),
      getD_set_ne l (off + 3) (off + 2) x (by omega)] at heq
    exact hx (by omega)

/-! ## Frame property of the load loop -/

theorem loadRel_refl (l : neural_layer) : loadRel l l := Or.inl rfl

theorem load_layers_frame (blob : List Nat) (size : Nat) :
    ∀ (k off : Nat) (ls : List neural_layer),
    List.Forall₂ loadRel ls (load_layers blob size k off ls) := by
  intro k
  induction k with
  | zero =>
    intro off ls
    cases ls with
    | nil => exact List.Forall₂.nil
    | cons l ls => exact List.forall₂_same.2 (fun x _ => loadRel_refl x)
  | succ k ih =>
    intro off ls
    cases ls with
    | nil => exact List.Forall₂.nil
    | cons l ls =>
      show List.Forall₂ loadRel (l :: ls) (load_layers blob size (k + 1) off (l :: ls))
      unfold load_layers
      by_cases hbrk : size < off + 12
      · rw [if_pos hbrk]
        exact List.forall₂_same.2 (fun x _ => loadRel_refl x)
      · rw [if_neg hbrk]
        by_cases hm : readU32 blob off = l.input_size ∧ readU32 blob (off + 4) = l.output_size
        · rw [if_pos hm]
          refine List.forall₂_cons.2 ⟨Or.inr ?_, ih _ _⟩
          obtain ⟨hm1, hm2⟩ := hm
          dsimp only
          split_ifs <;>
            refine ⟨rfl, rfl, rfl, rfl, rfl, rfl, ?_, ?_⟩ <;>
            simp [readS32_list_length, hm1, hm2]
        · rw [if_neg hm]
          exact List.forall₂_cons.2 ⟨loadRel_refl l, ih _ _⟩

/-- Full characterization of a successful `neural_network_predict` on a
well-formed initialized network: return code 0, output equal to the
sequential chain propagation truncated to `OUTPUT_LAYER` entries,
statistics untouched, layers replaced by the loop's result. -/
theorem predict_spec (nn : neural_network_t) (input : List Int)
    (hinit : nn.initialized = true) (hlen : nn.num_layers = nn.layers.length)
    (hpos : 1 ≤ nn.num_layers) :
    (neural_network_predict nn input).1 = 0 ∧
    (neural_network_predict nn input).2.1 =
      read_exact (chain_forward nn.layers input) nn.OUTPUT_LAYER ∧
    ((neural_network_predict nn input).2.2).stats = nn.stats ∧
    ((neural_network_predict nn input).2.2).layers =
      predict_layers nn.num_layers nn.layers input := by
  have hne : nn.layers ≠ [] := by
    intro h
    rw [hlen, h] at hpos
    exact absurd hpos (by simp)
  unfold neural_network_predict
  rw [if_neg (by simp [hinit])]
  refine ⟨rfl, ?_, rfl, rfl⟩
  show read_exact ((predict_layers nn.num_layers nn.layers input).getD
      (nn.num_layers - 1) default).neurons nn.OUTPUT_LAYER =
    read_exact (chain_forward nn.layers input) nn.OUTPUT_LAYER
  rw [hlen, predict_last_neurons nn.layers input hne]

/-! ## Round-trip alignment of the codec -/

theorem read_exact_self (xs : List Int) : read_exact xs xs.length = xs := by
  apply List.ext_getElem
  · simp [read_exact]
  · intro i h1 h2
    simp only [read_exact, List.getElem_map, List.getElem_range]
    rw [List.getD_eq_getElem?_getD, List.getElem?_eq_getElem h2]
    rfl

theorem body_bytes_cons (l : neural_layer) (ls : List neural_layer) :
    body_bytes (l :: ls) = layer_blob_bytes l ++ body_bytes ls := by
  simp [body_bytes]

theorem zipWith_transplant_coreEq {os fs : List neural_layer}
    (h : List.Forall₂ shapeEq os fs) :
    List.Forall₂ coreEq os (List.zipWith transplant os fs) := by
  induction h with
  | nil => exact List.Forall₂.nil
  | @cons o f os2 fs2 hof _ ih =>
    refine List.forall₂_cons.2 ⟨⟨rfl, rfl, hof.1, hof.2, rfl⟩, ih⟩

/-- Loading the serialized image of `os` into a shape-matching layer
list `fs` transplants activation, weights and biases of every layer. -/
theorem load_layers_aligned :
    ∀ {os fs : List neural_layer} (blob : List Nat) (off : Nat) (rest : List Nat),
    blob.drop off = body_bytes os ++ rest →
    List.Forall₂ shapeEq os fs →
    (∀ l ∈ os, wfLayer l) →
    load_layers blob blob.length os.length off fs = List.zipWith transplant os fs := by
  intro os fs blob off rest hdrop hsh hwf
  induction hsh generalizing off rest with
  | nil => rfl
  | @cons o f os2 fs2 hof htail ih =>
    have hwfo := hwf o (by simp)
    obtain ⟨hwlen, hblen, hilt, holt, halt, hwrange, hbrange⟩ := hwfo
    rw [body_bytes_cons] at hdrop
    simp only [layer_blob_bytes, List.append_assoc] at hdrop
    -- lengths of the serialized segments
    have hWlen : (s32_list_bytes (read_exact o.weights
        (o.input_size * o.output_size))).length = 4 * (o.input_size * o.output_size) := by
      rw [s32_list_bytes_length, read_exact_length]
    have hBlen : (s32_list_bytes (read_exact o.biases o.output_size)).length =
        4 * o.output_size := by
      rw [s32_list_bytes_length, read_exact_length]
    -- read_exact collapses on well-formed layers
    have hWself : read_exact o.weights (o.input_size * o.output_size) = o.weights := by
      rw [← hwlen, read_exact_self]
    have hBself : read_exact o.biases o.output_size = o.biases := by
      rw [← hblen, read_exact_self]
    -- total remaining length
    have hlen : (blob.drop off).length = blob.length - off := List.length_drop off blob
    have hrhs : (blob.drop off).length =
        12 + (4 * (o.input_size * o.output_size) + (4 * o.output_size +
          ((body_bytes os2).length + rest.length))) := by
      rw [hdrop]
      simp [u32_bytes, hWlen, hBlen]
      omega
    have hoff : off + 12 + 4 * (o.input_size * o.output_size) + 4 * o.output_size ≤
        blob.length := by
      by_cases hle : off ≤ blob.length
      · omega
      · exfalso
        rw [List.drop_eq_nil_of_le (by omega)] at hdrop
        have := congrArg List.length hdrop
        simp [u32_bytes] at this
    -- the three metadata reads
    have hd0 : blob.drop off = u32_bytes o.input_size ++ (u32_bytes o.output_size ++
        (u32_bytes o.activation_type ++ (s32_list_bytes (read_exact o.weights
          (o.input_size * o.output_size)) ++ (s32_list_bytes (read_exact o.biases
          o.output_size) ++ (body_bytes os2 ++ rest))))) := hdrop
    have hd4 : blob.drop (off + 4) = u32_bytes o.output_size ++
        (u32_bytes o.activation_type ++ (s32_list_bytes (read_exact o.weights
          (o.input_size * o.output_size)) ++ (s32_list_bytes (read_exact o.biases
          o.output_size) ++ (body_bytes os2 ++ rest)))) := by
      rw [← List.drop_drop, hd0, drop4_u32]
    have hd8 : blob.drop (off + 8) = u32_bytes o.activation_type ++
        (s32_list_bytes (read_exact o.weights (o.input_size * o.output_size)) ++
          (s32_list_bytes (read_exact o.biases o.output_size) ++
            (body_bytes os2 ++ rest))) := by
      rw [show off + 8 = off + 4 + 4 from by omega, ← List.drop_drop, hd4, drop4_u32]
    have hd12 : blob.drop (off + 12) =
        s32_list_bytes (read_exact o.weights (o.input_size * o.output_size)) ++
          (s32_list_bytes (read_exact o.biases o.output_size) ++
            (body_bytes os2 ++ rest)) := by
      rw [show off + 12 = off + 8 + 4 from by omega, ← List.drop_drop, hd8, drop4_u32]
    have hdW : blob.drop (off + 12 + 4 * (o.input_size * o.output_size)) =
        s32_list_bytes (read_exact o.biases o.output_size) ++
          (body_bytes os2 ++ rest) := by
      rw [← hWlen, ← List.drop_drop, hd12, List.drop_left]
    have hdB : blob.drop (off + 12 + 4 * (o.input_size * o.output_size) +
        4 * o.output_size) = body_bytes os2 ++ rest := by
      rw [← hBlen, ← List.drop_drop]
      rw [show blob.drop (off + 12 + 4 * (o.input_size * o.output_size)) =
        s32_list_bytes (read_exact o.biases o.output_size) ++
          (body_bytes os2 ++ rest) from hdW, List.drop_left]
    have hin : readU32 blob off = o.input_size := by
      rw [readU32_of_drop blob off o.input_size hd0, Nat.mod_eq_of_lt hilt]
    have hout : readU32 blob (off + 4) = o.output_size := by
      rw [readU32_of_drop blob (off + 4) o.output_size hd4, Nat.mod_eq_of_lt holt]
    have hact : readU32 blob (off + 8) = o.activation_type := by
      rw [readU32_of_drop blob (off + 8) o.activation_type hd8,
        Nat.mod_eq_of_lt (lt_trans halt (by norm_num))]
    have hwread : readS32_list blob (off + 12) (o.input_size * o.output_size) =
        o.weights := by
      have := readS32_list_of_drop o.weights blob (off + 12)
        (by rw [hd12, hWself]) hwrange
      rwa [hwlen] at this
    have hbread : readS32_list blob (off + 12 + 4 * (o.input_size * o.output_size))
        o.output_size = o.biases := by
      have := readS32_list_of_drop o.biases blob
        (off + 12 + 4 * (o.input_size * o.output_size))
        (by rw [hdW, hBself]) hbrange
      rwa [hblen] at this
    -- unfold one loop step
    show load_layers blob blob.length (os2.length + 1) off (f :: fs2) =
      transplant o f :: List.zipWith transplant os2 fs2
    unfold load_layers
    dsimp only
    rw [if_neg (by omega)]
    rw [if_pos (by rw [hin, hout]; exact ⟨hof.1, hof.2⟩)]
    rw [hin, hout, hact]
    have hW : off + 12 + o.input_size * o.output_size * 4 ≤ blob.length := by omega
    have hB : off + 12 + o.input_size * o.output_size * 4 + o.output_size * 4 ≤
        blob.length := by omega
    simp only [if_pos hW, if_pos hB]
    have hbread2 : readS32_list blob (off + 12 + o.input_size * o.output_size * 4)
        o.output_size = o.biases := by
      rw [show off + 12 + o.input_size * o.output_size * 4 =
        off + 12 + 4 * (o.input_size * o.output_size) from by ring]
      exact hbread
    have hrec : load_layers blob blob.length os2.length
        (off + 12 + o.input_size * o.output_size * 4 + o.output_size * 4) fs2 =
        List.zipWith transplant os2 fs2 := by
      have hoff2 : off + 12 + o.input_size * o.output_size * 4 + o.output_size * 4 =
          off + 12 + 4 * (o.input_size * o.output_size) + 4 * o.output_size := by ring
      rw [hoff2]
      exact ih (off + 12 + 4 * (o.input_size * o.output_size) + 4 * o.output_size) rest
        hdB (fun l hl => hwf l (List.mem_cons_of_mem o hl))
    have hmod : o.activation_type % 256 = o.activation_type := Nat.mod_eq_of_lt halt
    rw [hwread, hbread2, hrec, hmod]
    simp [transplant]

/-! ## Softmax normalization bounds -/

theorem natAbs_tmod (a b : Int) : (Int.tmod a b).natAbs = a.natAbs % b.natAbs := by
  cases a with
  | ofNat m =>
    cases b with
    | ofNat n => rfl
    | negSucc n => rfl
  | negSucc m =>
    cases b with
    | ofNat n =>
      show (-(Int.ofNat ((m + 1) % n))).natAbs = (m + 1) % n
      rw [Int.natAbs_neg]
      rfl
    | negSucc n =>
      show (-(Int.ofNat ((m + 1) % (n + 1)))).natAbs = (m + 1) % (n + 1)
      rw [Int.natAbs_neg]
      rfl

theorem natAbs_tmod_lt (a : Int) {b : Int} (hb : b ≠ 0) :
    (Int.tmod a b).natAbs < b.natAbs := by
  rw [natAbs_tmod]
  exact Nat.mod_lt _ (Int.natAbs_pos.2 hb)

theorem toS32_eq_self (v : Int) (h1 : -2 ^ 31 ≤ v) (h2 : v < 2 ^ 31) : toS32 v = v := by
  unfold toS32
  omega

theorem toS32_eq_self_of_natAbs (v : Int) (h : v.natAbs ≤ 2 ^ 31 - 1) : toS32 v = v :=
  toS32_eq_self v (by omega) (by omega)

/-- The `s32` accumulation loses nothing when the sum of magnitudes is
within `s32` range. -/
theorem foldl_toS32_eq (l : List Int) :
    ∀ a : Int, a.natAbs + (l.map Int.natAbs).sum ≤ 2 ^ 31 - 1 →
    l.foldl (fun x y => toS32 (x + y)) a = a + l.sum := by
  induction l with
  | nil =>
    intro a _
    simp
  | cons b bs ih =>
    intro a h
    simp only [List.map_cons, List.sum_cons] at h
    have hab : (a + b).natAbs ≤ a.natAbs + b.natAbs := Int.natAbs_add_le a b
    have hstep : toS32 (a + b) = a + b := toS32_eq_self_of_natAbs _ (by omega)
    show (bs.foldl (fun x y => toS32 (x + y)) (toS32 (a + b))) = a + (b :: bs).sum
    rw [hstep, ih (a + b) (by omega), List.sum_cons]
    ring

theorem s32sum_eq_sum (l : List Int) (h : (l.map Int.natAbs).sum ≤ 2 ^ 31 - 1) :
    s32sum l = l.sum := by
  unfold s32sum
  rw [foldl_toS32_eq l 0 (by simpa using h)]
  ring

/-- Exact division identity summed over a list. -/
theorem sum_tdiv_tmod (l : List Int) (s : Int) :
    s * (l.map (fun e => Int.tdiv (e * 65536) s)).sum +
      (l.map (fun e => Int.tmod (e * 65536) s)).sum = 65536 * l.sum := by
  induction l with
  | nil => simp
  | cons e es ih =>
    simp only [List.map_cons, List.sum_cons]
    have hd := Int.tdiv_add_tmod (e * 65536) s
    ring_nf
    ring_nf at ih hd
    linarith

theorem sum_tmod_natAbs_le (l : List Int) (s : Int) (hs : s ≠ 0) :
    ((l.map (fun e => Int.tmod (e * 65536) s)).sum).natAbs ≤
      l.length * (s.natAbs - 1) := by
  induction l with
  | nil => simp
  | cons e es ih =>
    simp only [List.map_cons, List.sum_cons, List.length_cons]
    have hr : (Int.tmod (e * 65536) s).natAbs ≤ s.natAbs - 1 := by
      have := natAbs_tmod_lt (e * 65536) hs
      omega
    calc (Int.tmod (e * 65536) s +
          (es.map (fun e => Int.tmod (e * 65536) s)).sum).natAbs ≤
        (Int.tmod (e * 65536) s).natAbs +
          ((es.map (fun e => Int.tmod (e * 65536) s)).sum).natAbs :=
          Int.natAbs_add_le _ _
      _ ≤ (s.natAbs - 1) + es.length * (s.natAbs - 1) := Nat.add_le_add hr ih
      _ = (es.length + 1) * (s.natAbs - 1) := by ring

/-- Core bound: dividing each `e*65536` by the exact sum `s` and adding
up lands within `length` ulps of 1.0. -/
theorem softmax_sum_core (es : List Int) (s : Int) (hs : s ≠ 0) (hsum : es.sum = s)
    (hn : 1 ≤ es.length) :
    ((es.map (fun e => Int.tdiv (e * 65536) s)).sum - 65536).natAbs < es.length := by
  have hid := sum_tdiv_tmod es s
  rw [hsum] at hid
  have hbound := sum_tmod_natAbs_le es s hs
  have hkey : s * ((es.map (fun e => Int.tdiv (e * 65536) s)).sum - 65536) =
      -((es.map (fun e => Int.tmod (e * 65536) s)).sum) := by linarith
  have habs : s.natAbs * ((es.map (fun e => Int.tdiv (e * 65536) s)).sum -
      65536).natAbs = ((es.map (fun e => Int.tmod (e * 65536) s)).sum).natAbs := by
    rw [← Int.natAbs_mul, hkey, Int.natAbs_neg]
  by_contra hcon
  push_neg at hcon
  have ha1 : 1 ≤ s.natAbs := Int.natAbs_pos.2 hs
  have h5 : s.natAbs * es.length ≤ es.length * (s.natAbs - 1) := by
    calc s.natAbs * es.length ≤ s.natAbs * ((es.map
          (fun e => Int.tdiv (e * 65536) s)).sum - 65536).natAbs :=
          Nat.mul_le_mul_left _ hcon
      _ = ((es.map (fun e => Int.tmod (e * 65536) s)).sum).natAbs := habs
      _ ≤ es.length * (s.natAbs - 1) := hbound
  have h6 : es.length * (s.natAbs - 1) + es.length = es.length * s.natAbs := by
    rw [← Nat.mul_succ, Nat.succ_eq_add_one, Nat.sub_add_cancel ha1]
  rw [Nat.mul_comm] at h5
  omega

theorem sum_map_const {α : Type} (l : List α) (c : Int) :
    (l.map (fun _ => c)).sum = l.length * c := by
  induction l with
  | nil => simp
  | cons x xs ih =>
    simp only [List.map_cons, List.sum_cons, List.length_cons, ih]
    push_cast
    ring

/-! # Theorems for the claims -/

/-- C1: the claim says `predict_cached` serves a cached entry only when
the slot is valid, the hashes match, AND the elapsed time is below the
TTL.  In the code the hit test is only `valid && input_hash == hash`:
`timeout_ns` and `cache_time` are never consulted.  This theorem
evaluates the model at a state whose entry expired nine seconds ago
(TTL 1 s): the call still returns the cached output and still increments
the cache-hit counter, diverging from the claim (and from the function's
own "configurable timeout" documentation) — the stale entry should have
been recomputed. -/
theorem C1_expired_entry_still_served :
    (10000000000 : Int) - nnC.prediction_cache.cache_time ≥
      (nnC.prediction_cache.timeout_ns : Int) ∧
    (neural_network_predict_cached nnC [65536] 10000000000 10000000000 10000000001).1 = 0 ∧
    (neural_network_predict_cached nnC [65536] 10000000000 10000000000 10000000001).2.1 =
      [42] ∧
    ((neural_network_predict_cached nnC [65536] 10000000000 10000000000
        10000000001).2.2).stats.cache_hits = nnC.stats.cache_hits + 1 := by
  refine ⟨by decide, by decide, by decide, by decide⟩

/-- C2 counterexample: `nnBad`'s layer is `weights_validated` with a
stored checksum (1) different from the recomputed CRC (0), so
`neural_self_test` fails — but the network stays `initialized` and the
very next `neural_network_predict` succeeds (returns 0), refuting the
claim that the Network leaves Ready and every subsequent predict fails
until recovery. -/
theorem C2_counterexample :
    (nnBad.layers.getD 0 default).weights_validated = true ∧
    (nnBad.layers.getD 0 default).checksum ≠ layer_crc (nnBad.layers.getD 0 default) ∧
    (neural_self_test nnBad 5).1 = -EINVAL ∧
    ((neural_self_test nnBad 5).2).initialized = true ∧
    (neural_network_predict ((neural_self_test nnBad 5).2) [100]).1 = 0 := by
  refine ⟨by decide, by decide, by decide, by decide, by decide⟩

/-- C4: the claim says `div` fails with a `DivisionByZero` error when
`b == 0` rather than performing the division.  The source macro
`FP_DIV(a, b) = (((s64)(a) << FP_SHIFT) / (b))` has no zero test and no
error channel at all (and the module defines no DivisionByZero error
code): for every `a` and `b`, including `b = 0`, it is the bare widened
shift-then-divide expression.  (At `b = 0` the C expression is undefined
behavior — a kernel divide fault, not a returned error.) -/
theorem C4_fp_div_has_no_zero_guard :
    ∀ a b : Int, FP_DIV a b = Int.tdiv (a * 2 ^ FP_SHIFT) b := by
  intro a b
  rfl

/-- C5: `neural_network_set_weights` stores weights verbatim with no
range validation: storing `INT_TO_FP(200)` — double the documented
`NEURAL_MAX_WEIGHT_VALUE` bound — succeeds (returns 0) and the
out-of-range value lands in the layer, even though the module's own
(never-called) `neural_validate_weights` would reject it.  This refutes
the claimed invariant that every weight-storing operation rejects values
outside `[MIN_WEIGHT, MAX_WEIGHT]`. -/
theorem C5_set_weights_stores_out_of_range :
    (neural_network_set_weights nnC 0 [INT_TO_FP 200] none).1 = 0 ∧
    (((neural_network_set_weights nnC 0 [INT_TO_FP 200] none).2).layers.getD 0
        default).weights = [INT_TO_FP 200] ∧
    INT_TO_FP 200 > NEURAL_MAX_WEIGHT_VALUE ∧
    neural_validate_weights [INT_TO_FP 200] 1 = false := by
  refine ⟨by decide, by decide, by decide, by decide⟩

/-- C7 counterexample: a successful `neural_network_predict` on `nnA`
leaves the statistics block exactly as it was (prediction count still
0), refuting the claim that `predict` updates the statistics on both the
success and the failure path.  (No statistics code exists in
`neural_network_predict`; `neural_update_stats` is reached only from
`neural_network_predict_cached`.) -/
theorem C7_counterexample :
    (neural_network_predict nnA [65536]).1 = 0 ∧
    (neural_network_predict nnA [65536]).2.1 = [131072] ∧
    ((neural_network_predict nnA [65536]).2.2).stats = nnA.stats ∧
    nnA.stats.predictions_made = 0 := by
  refine ⟨by decide, by decide, by decide, by decide⟩

/-- C8 counterexample: at `x = 1.0` (inside the non-saturated range) the
code's exponential sums only the cubic Taylor polynomial, giving
174762, while the spec's 8-term reference sum (same term recurrence
continued to 8 terms) gives 178142 — so the "fixed number" of summed
Taylor terms is 4, not the claimed reference count of 8. -/
theorem C8_counterexample :
    INT_TO_FP (-5) ≤ 65536 ∧ (65536 : Int) ≤ INT_TO_FP 5 ∧
    neural_fp_exp 65536 = 174762 ∧ taylorFP 8 65536 = 178142 ∧
    neural_fp_exp 65536 ≠ taylorFP 8 65536 := by
  refine ⟨by decide, by decide, by decide, by decide, by decide⟩

/-- C9 counterexample: on the adversarial-but-finite input vector
`[0, -164674, -104601]` (length 3) the first softmax pass produces the
fixed-point exponentials `[65536, -65534, 0]` (the cubic `exp`
approximation is negative on part of its range), whose sum is 2; the
normalization `FP_DIV(65536, 2) = 2^31` then overflows `s32` and wraps
to −2^31, so the output vector sums to −4294901760 — nowhere near
1.0 ± ε (off by more than 2^31 ulps), refuting the claim that the output
always sums to 1.0 within the error bound. -/
theorem C9_counterexample :
    neural_softmax [0, -164674, -104601] = [-2147483648, -2147418112, 0] ∧
    ((neural_softmax [0, -164674, -104601]).sum - 65536).natAbs > 2 ^ 31 := by
  refine ⟨by decide, by decide⟩

/-- C2 amended: when `neural_self_test` detects a checksum mismatch it
fails with `-EINVAL` and records the error, but the Network does NOT
leave the Ready state (`initialized` is unchanged) and subsequent
`neural_network_predict` calls behave exactly as before the failed
self-test — same return code and same output — so no `recover()` is
required for predictions to keep succeeding. -/
theorem C2_self_test_failure_does_not_gate_predict (nn : neural_network_t) (now : Int)
    (input : List Int) (hfail : (neural_self_test nn now).1 ≠ 0) :
    (neural_self_test nn now).1 = -EINVAL ∧
    ((neural_self_test nn now).2).initialized = nn.initialized ∧
    (neural_network_predict ((neural_self_test nn now).2) input).1 =
      (neural_network_predict nn input).1 ∧
    (neural_network_predict ((neural_self_test nn now).2) input).2.1 =
      (neural_network_predict nn input).2.1 := by
  have hcong := predict_congr (self_test_initialized nn now) (self_test_num_layers nn now)
    (self_test_OUTPUT nn now) (self_test_layers_frame nn now) input
  exact ⟨self_test_fail_code nn now hfail, self_test_initialized nn now, hcong.1, hcong.2⟩

/-- C2 witness: the amended theorem applied to the concrete mismatching
network `nnBad`. -/
theorem C2_witness :
    (neural_self_test nnBad 5).1 = -EINVAL ∧
    ((neural_self_test nnBad 5).2).initialized = nnBad.initialized ∧
    (neural_network_predict ((neural_self_test nnBad 5).2) [100]).1 =
      (neural_network_predict nnBad [100]).1 ∧
    (neural_network_predict ((neural_self_test nnBad 5).2) [100]).2.1 =
      (neural_network_predict nnBad [100]).2.1 :=
  C2_self_test_failure_does_not_gate_predict nnBad 5 [100] (by decide)

/-- C7 amended: on an initialized, well-formed network
`neural_network_predict` returns 0, propagates the input sequentially
through the layers (its output is the final value of the plain
sequential recursion `chain_forward`, truncated/copied to
`OUTPUT_LAYER` entries), and overwrites only the layers' `neurons`
buffers — the statistics block is NOT updated on this (successful)
path, nor on any path inside `neural_network_predict`. -/
theorem C7_predict_propagates_but_skips_stats (nn : neural_network_t) (input : List Int)
    (hinit : nn.initialized = true) (hlen : nn.num_layers = nn.layers.length)
    (hpos : 1 ≤ nn.num_layers) :
    (neural_network_predict nn input).1 = 0 ∧
    (neural_network_predict nn input).2.1 =
      read_exact (chain_forward nn.layers input) nn.OUTPUT_LAYER ∧
    ((neural_network_predict nn input).2.2).stats = nn.stats ∧
    ((neural_network_predict nn input).2.2).layers =
      predict_layers nn.num_layers nn.layers input :=
  predict_spec nn input hinit hlen hpos

/-- C7 witness: the amended theorem applied to the concrete two-layer
network `nnA`. -/
theorem C7_witness :
    (neural_network_predict nnA [65536]).1 = 0 ∧
    (neural_network_predict nnA [65536]).2.1 =
      read_exact (chain_forward nnA.layers [65536]) nnA.OUTPUT_LAYER ∧
    ((neural_network_predict nnA [65536]).2.2).stats = nnA.stats ∧
    ((neural_network_predict nnA [65536]).2.2).layers =
      predict_layers nnA.num_layers nnA.layers [65536] :=
  C7_predict_propagates_but_skips_stats nnA [65536] (by decide) (by decide) (by decide)

/-- C10: a successful `neural_network_set_weights` call leaves the
prediction-cache slot completely untouched (same record: valid flag,
stored hash, cached output, timestamps), so a following
`neural_network_predict_cached` whose input hashes to the stored hash
takes the cache-hit path: it returns the cached output captured with
the pre-update weights, increments `cache_hits`, and runs no forward
pass (the layers — including every `neurons` buffer — are exactly as
`set_weights` left them). -/
theorem C10_set_weights_leaves_stale_cache (nn : neural_network_t) (idx : Nat)
    (w : List Int) (bs : Option (List Int)) (input : List Int) (t1 t2 t3 : Int)
    (hidx : idx < nn.num_layers) (hinit : nn.initialized = true)
    (hvalid : nn.prediction_cache.valid = true)
    (hhash : nn.prediction_cache.input_hash = neural_hash_input input nn.INPUT_LAYER) :
    (neural_network_set_weights nn idx w bs).1 = 0 ∧
    ((neural_network_set_weights nn idx w bs).2).prediction_cache =
      nn.prediction_cache ∧
    (neural_network_predict_cached ((neural_network_set_weights nn idx w bs).2)
        input t1 t2 t3).1 = 0 ∧
    (neural_network_predict_cached ((neural_network_set_weights nn idx w bs).2)
        input t1 t2 t3).2.1 =
      read_exact nn.prediction_cache.cached_output nn.OUTPUT_LAYER ∧
    ((neural_network_predict_cached ((neural_network_set_weights nn idx w bs).2)
        input t1 t2 t3).2.2).stats.cache_hits = nn.stats.cache_hits + 1 ∧
    ((neural_network_predict_cached ((neural_network_set_weights nn idx w bs).2)
        input t1 t2 t3).2.2).layers =
      ((neural_network_set_weights nn idx w bs).2).layers := by
  have hsw : neural_network_set_weights nn idx w bs =
      (0, { nn with layers :=
        nn.layers.set idx (set_weights_layer (nn.layers.getD idx default) w bs) }) := by
    unfold neural_network_set_weights
    rw [if_neg (not_le.2 hidx)]
  rw [hsw]
  unfold neural_network_predict_cached
  rw [if_neg (by simp [hinit])]
  rw [if_pos (by exact ⟨hvalid, hhash⟩)]
  exact ⟨rfl, rfl, rfl, rfl, rfl, rfl⟩

/-- C10 witness: `nnC` holds a valid cached output `[42]` for input
`[65536]`; after overwriting the single layer's weights the cached
value is still served and no forward pass runs. -/
theorem C10_witness :
    (neural_network_set_weights nnC 0 [131072] none).1 = 0 ∧
    ((neural_network_set_weights nnC 0 [131072] none).2).prediction_cache =
      nnC.prediction_cache ∧
    (neural_network_predict_cached ((neural_network_set_weights nnC 0 [131072] none).2)
        [65536] 7 8 9).1 = 0 ∧
    (neural_network_predict_cached ((neural_network_set_weights nnC 0 [131072] none).2)
        [65536] 7 8 9).2.1 =
      read_exact nnC.prediction_cache.cached_output nnC.OUTPUT_LAYER ∧
    ((neural_network_predict_cached ((neural_network_set_weights nnC 0 [131072] none).2)
        [65536] 7 8 9).2.2).stats.cache_hits = nnC.stats.cache_hits + 1 ∧
    ((neural_network_predict_cached ((neural_network_set_weights nnC 0 [131072] none).2)
        [65536] 7 8 9).2.2).layers =
      ((neural_network_set_weights nnC 0 [131072] none).2).layers :=
  C10_set_weights_leaves_stale_cache nnC 0 [131072] none [65536] 7 8 9
    (by decide) (by decide) (by decide) (by decide)

/-- C8 amended: `neural_fp_exp` saturates to the precomputed constant
`INT_TO_FP(148)` (≈ e^5) for inputs above +5.0 and to 0 for inputs below
−5.0; in between it sums a fixed number of Taylor terms of the code's
term recurrence — but that fixed number is 4 (the cubic polynomial
`1 + x + x²/2 + x³/6`), not the claimed reference count of 8. -/
theorem C8_exp_saturates_and_sums_four_terms (x : Int) :
    (x > INT_TO_FP 5 → neural_fp_exp x = INT_TO_FP 148) ∧
    (x < INT_TO_FP (-5) → neural_fp_exp x = 0) ∧
    (INT_TO_FP (-5) ≤ x → x ≤ INT_TO_FP 5 → neural_fp_exp x = taylorFP 4 x) := by
  refine ⟨fun h => ?_, fun h => ?_, fun h1 h2 => ?_⟩
  · unfold neural_fp_exp
    rw [if_pos h]
  · unfold neural_fp_exp
    rw [if_neg (by simp only [INT_TO_FP] at h ⊢; omega), if_pos h]
  · unfold neural_fp_exp
    rw [if_neg (by simp only [INT_TO_FP] at h2 ⊢; omega),
      if_neg (by simp only [INT_TO_FP] at h1 ⊢; omega)]
    simp only [taylorFP, taylorFP_from, if_true, if_neg (by omega : ¬ (3 : Nat) = 2)]
    ring_nf

/-- C8 witness: the amended theorem instantiated at `x = 1.0` (the
non-saturated branch), where the 4-term sum is 174762. -/
theorem C8_witness :
    (INT_TO_FP (-5) ≤ (65536 : Int) ∧ (65536 : Int) ≤ INT_TO_FP 5) ∧
    neural_fp_exp 65536 = taylorFP 4 65536 ∧ taylorFP 4 65536 = 174762 :=
  ⟨⟨by decide, by decide⟩,
    (C8_exp_saturates_and_sums_four_terms 65536).2.2 (by decide) (by decide), by decide⟩

/-- C3: `neural_network_load_model` (1) rejects blobs shorter than the
32-byte header, (2) rejects a wrong magic or version, (3) rejects a
checksum mismatch — in all three cases returning `-EINVAL` with the
network bit-for-bit unchanged, since the CRC is verified before the
layer loop runs; and (4) when all header checks pass it succeeds
(returns 0 — shape mismatches are skipped, never an error), keeps the
layer count, and touches a layer only by an in-place overwrite that
preserves its shape (writes happen only when the blob's sizes equal the
live layer's sizes; see `loadRel`); finally (5) corrupting any single
byte of a saved blob's stored checksum field makes the load fail with
`-EINVAL` and leave the destination network unchanged. -/
theorem C3_load_model_validates_before_touching_layers (nn : neural_network_t)
    (blob : List Nat) :
    (blob.length < HEADER_SIZE → neural_network_load_model nn blob = (-EINVAL, nn)) ∧
    (¬ blob.length < HEADER_SIZE →
      (readU32 blob 0 ≠ 0xDEADBEEF ∨ readU32 blob 4 ≠ 1) →
      neural_network_load_model nn blob = (-EINVAL, nn)) ∧
    (¬ blob.length < HEADER_SIZE → readU32 blob 0 = 0xDEADBEEF → readU32 blob 4 = 1 →
      crc32 0 (blob.drop HEADER_SIZE) ≠ readU32 blob 16 →
      neural_network_load_model nn blob = (-EINVAL, nn)) ∧
    (¬ blob.length < HEADER_SIZE → readU32 blob 0 = 0xDEADBEEF → readU32 blob 4 = 1 →
      crc32 0 (blob.drop HEADER_SIZE) = readU32 blob 16 →
      (neural_network_load_model nn blob).1 = 0 ∧
      ((neural_network_load_model nn blob).2).num_layers = nn.num_layers ∧
      List.Forall₂ loadRel nn.layers ((neural_network_load_model nn blob).2).layers) ∧
    (∀ (ts j b2 : Nat), j < 4 → b2 < 256 →
      b2 ≠ ((neural_network_save_model nn ts).2).getD (16 + j) 0 →
      ∀ nn2 : neural_network_t,
        neural_network_load_model nn2
          (((neural_network_save_model nn ts).2).set (16 + j) b2) = (-EINVAL, nn2)) := by
  refine ⟨fun h => ?_, fun h1 h2 => ?_, fun h1 h2 h3 h4 => ?_, fun h1 h2 h3 h4 => ?_,
    fun ts j b2 hj hb2 hne nn2 => ?_⟩
  · unfold neural_network_load_model
    rw [if_pos h]
  · unfold neural_network_load_model
    rw [if_neg h1, if_pos h2]
  · unfold neural_network_load_model
    rw [if_neg h1, if_neg (by simp [h2, h3]), if_pos h4]
  · unfold neural_network_load_model
    rw [if_neg h1, if_neg (by simp [h2, h3]), if_neg (by simp [h4])]
    refine ⟨rfl, rfl, ?_⟩
    have hk := load_layers_frame blob blob.length
      (min nn.num_layers (readU32 blob 8)) HEADER_SIZE
      (nn.layers.take (min nn.num_layers (readU32 blob 8)))
    have hd : List.Forall₂ loadRel (nn.layers.drop (min nn.num_layers (readU32 blob 8)))
        (nn.layers.drop (min nn.num_layers (readU32 blob 8))) :=
      List.forall₂_same.2 (fun x _ => loadRel_refl x)
    have := forall2_append hk hd
    rwa [List.take_append_drop] at this
  · have hlen := save_length_ge nn ts
    have hlen2 : 16 + j < ((neural_network_save_model nn ts).2).length := by omega
    unfold neural_network_load_model
    simp only [HEADER_SIZE]
    rw [if_neg (by rw [List.length_set]; omega)]
    rw [if_neg (by
      rw [readU32_set_outside _ _ _ _ (by omega), readU32_set_outside _ _ _ _ (by omega),
        save_readU32_0, save_readU32_4]
      simp)]
    rw [if_pos (by
      have hdrop : (((neural_network_save_model nn ts).2).set (16 + j) b2).drop 32 =
          ((neural_network_save_model nn ts).2).drop 32 := by
        rw [List.drop_set]
        rw [if_pos (by omega : 16 + j < 32)]
      rw [hdrop, save_drop_32]
      have hread := readU32_set_inside_ne ((neural_network_save_model nn ts).2) 16 j b2
        hj (by omega) hne
      rw [save_readU32_16] at hread
      intro hcontra
      exact hread (by rw [hcontra]))]

/-- C3 witness: the theorem applied to concrete inputs — the empty blob
is rejected with the network unchanged; the blob saved from `nnA` loads
back into `nnA` successfully; and the same blob with its checksum byte
at offset 16 corrupted (19 ↦ 20) is rejected by the fresh network with
no change. -/
theorem C3_witness :
    neural_network_load_model nnA [] = (-EINVAL, nnA) ∧
    (neural_network_load_model nnA (neural_network_save_model nnA 123456789).2).1 = 0 ∧
    neural_network_load_model freshA
      (((neural_network_save_model nnA 123456789).2).set (16 + 0) 20) =
      (-EINVAL, freshA) :=
  ⟨(C3_load_model_validates_before_touching_layers nnA []).1 (by decide),
    ((C3_load_model_validates_before_touching_layers nnA
        (neural_network_save_model nnA 123456789).2).2.2.2.1
      (by decide) (by decide) (by decide) (by decide)).1,
    (C3_load_model_validates_before_touching_layers nnA
        (neural_network_save_model nnA 123456789).2).2.2.2.2
      123456789 0 20 (by decide) (by decide) (by decide) freshA⟩

/-- C6: saving a well-formed network and loading the blob into a freshly
constructed network of identical shape succeeds, and the fresh network's
`predict` then returns bit-for-bit the same return code and output as
the original network's `predict`, on every input. -/
theorem C6_save_load_roundtrip_preserves_predict (nn fresh : neural_network_t)
    (ts : Nat) (input : List Int) (hwf : wfNetwork nn) (hwff : wfNetwork fresh)
    (hsh : sameShape nn fresh) (hni : nn.initialized = true)
    (hfi : fresh.initialized = true) (hpos : 1 ≤ nn.num_layers) :
    (neural_network_save_model nn ts).1 = 0 ∧
    (neural_network_load_model fresh (neural_network_save_model nn ts).2).1 = 0 ∧
    (neural_network_predict ((neural_network_load_model fresh
        (neural_network_save_model nn ts).2).2) input).1 =
      (neural_network_predict nn input).1 ∧
    (neural_network_predict ((neural_network_load_model fresh
        (neural_network_save_model nn ts).2).2) input).2.1 =
      (neural_network_predict nn input).2.1 := by
  obtain ⟨hnl, hn32, hnwf⟩ := hwf
  obtain ⟨hfl, hf32, hfwf⟩ := hwff
  obtain ⟨hnum, hout, hshl⟩ := hsh
  have h8 : readU32 (neural_network_save_model nn ts).2 8 = nn.num_layers := by
    rw [save_readU32_8, Nat.mod_eq_of_lt hn32]
  have hk : min fresh.num_layers (readU32 (neural_network_save_model nn ts).2 8) =
      nn.num_layers := by
    rw [h8, ← hnum, Nat.min_self]
  have htake : fresh.layers.take nn.num_layers = fresh.layers := by
    rw [hnum, hfl, List.take_length]
  have hdropf : fresh.layers.drop nn.num_layers = [] := by
    rw [hnum, hfl, List.drop_length]
  have hbody : ((neural_network_save_model nn ts).2).drop 32 =
      body_bytes nn.layers ++ [] := by
    rw [save_drop_32, hnl, List.take_length, List.append_nil]
  have haligned : load_layers (neural_network_save_model nn ts).2
      ((neural_network_save_model nn ts).2).length nn.num_layers 32 fresh.layers =
      List.zipWith transplant nn.layers fresh.layers := by
    rw [hnl]
    exact load_layers_aligned (neural_network_save_model nn ts).2 32 [] hbody hshl hnwf
  have hload : neural_network_load_model fresh (neural_network_save_model nn ts).2 =
      (0, { fresh with layers := List.zipWith transplant nn.layers fresh.layers }) := by
    unfold neural_network_load_model
    rw [if_neg (by have := save_length_ge nn ts; simp only [HEADER_SIZE]; omega)]
    rw [if_neg (by rw [save_readU32_0, save_readU32_4]; simp)]
    rw [if_neg (by
      simp only [HEADER_SIZE]
      rw [save_drop_32, save_readU32_16]
      simp)]
    rw [hk]
    dsimp only
    rw [htake, hdropf, List.append_nil]
    simp only [HEADER_SIZE]
    rw [haligned]
  have h1 := predict_spec nn input hni hnl hpos
  have hlen2 : ({ fresh with layers := List.zipWith transplant nn.layers fresh.layers } : neural_network_t).num_layers = (List.zipWith transplant nn.layers fresh.layers).length := by
    show fresh.num_layers = (List.zipWith transplant nn.layers fresh.layers).length
    rw [List.length_zipWith, ← hnl, ← hfl, ← hnum, Nat.min_self]
  have hpos2 : 1 ≤ ({ fresh with layers := List.zipWith transplant nn.layers fresh.layers } : neural_network_t).num_layers := by
    show 1 ≤ fresh.num_layers
    rw [← hnum]
    exact hpos
  have h2 := predict_spec { fresh with layers := List.zipWith transplant nn.layers fresh.layers } input hfi hlen2 hpos2
  refine ⟨rfl, by rw [hload], ?_, ?_⟩
  · rw [hload, h1.1, h2.1]
  · rw [hload, h1.2.1, h2.2.1]
    show read_exact (chain_forward (List.zipWith transplant nn.layers fresh.layers)
        input) fresh.OUTPUT_LAYER =
      read_exact (chain_forward nn.layers input) nn.OUTPUT_LAYER
    rw [← chain_forward_congr (zipWith_transplant_coreEq hshl) input, hout]

/-- C6 witness: the round-trip theorem applied to the concrete network
`nnA` and the freshly zeroed `freshA` of identical shape, on input 1.0. -/
theorem C6_witness :
    (neural_network_save_model nnA 123456789).1 = 0 ∧
    (neural_network_load_model freshA (neural_network_save_model nnA 123456789).2).1 = 0 ∧
    (neural_network_predict ((neural_network_load_model freshA
        (neural_network_save_model nnA 123456789).2).2) [65536]).1 =
      (neural_network_predict nnA [65536]).1 ∧
    (neural_network_predict ((neural_network_load_model freshA
        (neural_network_save_model nnA 123456789).2).2) [65536]).2.1 =
      (neural_network_predict nnA [65536]).2.1 :=
  C6_save_load_roundtrip_preserves_predict nnA freshA 123456789 [65536]
    (by exact ⟨rfl, by decide, by decide⟩)
    (by exact ⟨rfl, by decide, by decide⟩)
    (by refine ⟨rfl, rfl, ?_⟩; exact List.forall₂_cons.2 ⟨⟨rfl, rfl⟩,
      List.forall₂_cons.2 ⟨⟨rfl, rfl⟩, List.Forall₂.nil⟩⟩)
    (by decide) (by decide) (by decide)

/-- C9 amended: `neural_softmax` subtracts the maximum, exponentiates,
and divides by the sum (uniform `1/len` when the sum is exactly zero) —
and, PROVIDED no 32-bit overflow occurs (the accumulated exponential
magnitudes fit in `s32` and every normalization quotient fits in
`s32`), the outputs sum to 1.0 within `len` fixed-point ulps, for every
nonempty input of length at most 65535.  Without the no-overflow
provisos the bound fails (see the counterexample). -/
theorem C9_softmax_sum_bound (x : Int) (xs : List Int)
    (hlen : (x :: xs).length ≤ 65535)
    (habs : ((softmax_exps (x :: xs)).map Int.natAbs).sum ≤ 2 ^ 31 - 1)
    (hq : ∀ e ∈ softmax_exps (x :: xs),
      (Int.tdiv (e * 65536) ((softmax_exps (x :: xs)).sum)).natAbs ≤ 2 ^ 31 - 1) :
    ((neural_softmax (x :: xs)).sum - 65536).natAbs < (x :: xs).length := by
  have hs32 : s32sum (softmax_exps (x :: xs)) = (softmax_exps (x :: xs)).sum :=
    s32sum_eq_sum _ habs
  have hlenes : (softmax_exps (x :: xs)).length = (x :: xs).length := by
    simp [softmax_exps]
  unfold neural_softmax
  dsimp only
  by_cases hz : s32sum (softmax_exps (x :: xs)) ≠ 0
  · rw [if_pos hz]
    have hmapeq : (softmax_exps (x :: xs)).map
        (fun e => toS32 (FP_DIV e (s32sum (softmax_exps (x :: xs))))) =
        (softmax_exps (x :: xs)).map
          (fun e => Int.tdiv (e * 65536) ((softmax_exps (x :: xs)).sum)) := by
      apply List.map_congr_left
      intro e he
      show toS32 (Int.tdiv (e * 65536) (s32sum (softmax_exps (x :: xs)))) =
        Int.tdiv (e * 65536) ((softmax_exps (x :: xs)).sum)
      rw [hs32]
      exact toS32_eq_self_of_natAbs _ (hq e he)
    rw [hmapeq, ← hlenes]
    exact softmax_sum_core _ _ (by rw [← hs32]; exact hz) rfl
      (by rw [hlenes]; simp)
  · rw [if_neg hz]
    have hn1 : 1 ≤ (x :: xs).length := by simp
    have hmod : (((x :: xs).length * 65536) % 2 ^ 32 : Nat) =
        (x :: xs).length * 65536 := Nat.mod_eq_of_lt (by omega)
    have hdiv : FP_DIV FP_ONE ((((x :: xs).length * 65536) % 2 ^ 32 : Nat) : Int) =
        (65536 : Int) / ((x :: xs).length : Int) := by
      show Int.tdiv (FP_ONE * 65536) _ = _
      rw [hmod]
      push_cast
      rw [show (FP_ONE * 65536 : Int) = 65536 * 65536 from rfl,
        show (((x :: xs).length : Int) * 65536) = 65536 * ((x :: xs).length : Int)
          from by ring,
        Int.tdiv_eq_ediv (by norm_num) (by positivity),
        Int.mul_ediv_mul_of_pos _ _ (by norm_num : (0 : Int) < 65536)]
    have hu0 : (0 : Int) ≤ 65536 / ((x :: xs).length : Int) :=
      Int.ediv_nonneg (by norm_num) (by positivity)
    have hu1 : (65536 : Int) / ((x :: xs).length : Int) ≤ 65536 :=
      Int.ediv_le_self _ (by norm_num)
    have huni : toS32 (FP_DIV FP_ONE ((((x :: xs).length * 65536) % 2 ^ 32 : Nat) :
        Int)) = (65536 : Int) / ((x :: xs).length : Int) := by
      rw [hdiv]
      exact toS32_eq_self _ (by omega) (by omega)
    rw [huni, sum_map_const, hlenes]
    have hpos : (0 : Int) < ((x :: xs).length : Int) := by positivity
    have hdm := Int.ediv_add_emod (65536 : Int) ((x :: xs).length : Int)
    have hml := Int.emod_lt_of_pos (65536 : Int) hpos
    have hm0 : (0 : Int) ≤ 65536 % ((x :: xs).length : Int) :=
      Int.emod_nonneg _ (by positivity)
    have hkey : ((x :: xs).length : Int) * (65536 / ((x :: xs).length : Int)) -
        65536 = -(65536 % ((x :: xs).length : Int)) := by linarith
    rw [hkey, Int.natAbs_neg]
    omega

/-- C9 witness: the amended theorem applied to the concrete vector
`[0, 0]`, whose exponentials are `[65536, 65536]` and whose normalized
outputs sum to exactly 1.0 (error 0 < 2). -/
theorem C9_witness :
    ((neural_softmax [0, 0]).sum - 65536).natAbs < 2 :=
  C9_softmax_sum_bound 0 [0] (by decide) (by decide) (by decide)

end Neural
